import Mathlib

/-!
# RepoSense core: file selection and content chunking

Shallow embedding of the two algorithmic components of RepoSense:

* `selectKeyFiles` (and its inner helper `addFile`) from `src/lib/fileSelector.ts`;
* `chunkContent` from the HuggingFace client module.

Modelling conventions:

* JS strings are modelled as `String` (paths) and `List Char` (file contents
  and chunk contents); `s.substring(0, n)` is `List.take n`, `s.length` is
  `List.length`, string concatenation is `List.append`.
* `Array.prototype.sort` is required to be stable by the ECMAScript standard,
  and a stable sort's output is uniquely determined by the input order and the
  total preorder `le a b ↔ comparator(a, b) <= 0`; it is modelled here by the
  stable `List.insertionSort le`.
* `a.localeCompare(b)` is modelled as code-unit lexicographic comparison.
* Mutation of the `selectedFiles` / `totalSize` closure state is modelled by
  explicit state passing (`SelState`).
-/

namespace RepoSense

inductive FType where
  | file
  | dir
deriving DecidableEq

/-- `FileObject` from `src/types/analysis.ts`. -/
structure FileObject where
  path : String
  content : List Char
  size : Nat
  type : FType
deriving DecidableEq

/-! ## Constants from `src/lib/fileSelector.ts` -/

def MAX_FILE_SIZE : Nat := 100 * 1024

def MAX_TOTAL_CONTENT : Nat := 50 * 1024

def PRIORITY_1_FILES : List String :=
  ["README.md", "README.txt", "README", "CONTRIBUTING.md", "LICENSE",
   "LICENSE.md", "LICENSE.txt"]

def PRIORITY_2_PATTERNS : List String :=
  ["package.json", "tsconfig.json", "next.config.js", "next.config.mjs",
   "tailwind.config.js", "tailwind.config.ts", ".eslintrc", ".eslintrc.js",
   ".eslintrc.json", "eslint.config.js", ".prettierrc", ".prettierrc.js",
   ".prettierrc.json", "jest.config.js", "jest.config.ts", "Dockerfile",
   "docker-compose.yml", ".env.example", ".gitignore", "vite.config.js",
   "vite.config.ts", "webpack.config.js"]

def ENTRY_POINT_PATTERNS : List String :=
  ["index.ts", "index.js", "main.ts", "main.js", "app.ts", "app.js",
   "server.ts", "server.js"]

def PRIORITY_DIRECTORIES : List String :=
  ["/src/", "/lib/", "/app/", "/components/", "/pages/", "/api/"]

/-! ## Path helpers -/

/-- JS `path.split('/')`, on the character list of the path. -/
def splitSegs : List Char → List (List Char)
  | [] => [[]]
  | c :: cs =>
    match splitSegs cs with
    | [] => [[]]
    | s :: ss => if c = '/' then [] :: s :: ss else (c :: s) :: ss

/-- JS `path.split('/').pop() || ''`: the base name of a path. -/
def baseNameOf (p : String) : String := ⟨(splitSegs p.data).getLastD []⟩

/-- JS `path.split('/').length`: the number of path segments. -/
def depthOf (p : String) : Nat := (splitSegs p.data).length

/-- `startsWithSeg pat l` : `pat` is a prefix of `l`. -/
def startsWithSeg : List Char → List Char → Bool
  | [], _ => true
  | _ :: _, [] => false
  | a :: as, b :: bs => a == b && startsWithSeg as bs

/-- JS `l.includes(pat)` for strings: `pat` occurs as a contiguous substring. -/
def containsSub : List Char → List Char → Bool
  | pat, [] => pat.isEmpty
  | pat, b :: bs => startsWithSeg pat (b :: bs) || containsSub pat bs

/-- JS `a.localeCompare(b) <= 0`, modelled as code-unit lexicographic order. -/
def lexLe : List Char → List Char → Bool
  | [], _ => true
  | _ :: _, [] => false
  | a :: as, b :: bs => if a < b then true else if b < a then false else lexLe as bs

/-! ## The selector (`selectKeyFiles`) -/

/-- The `'\n... (truncated)'` marker literal appended by `addFile`. -/
def TRUNC_MARKER : List Char := "\n... (truncated)".data

/-- The closure state of `selectKeyFiles`: the `selectedFiles` array and the
`totalSize` accumulator. -/
structure SelState where
  selected : List FileObject
  totalSize : Nat
deriving DecidableEq

/-- `const truncatedContent = file.content.substring(0, MAX_FILE_SIZE) + '\n... (truncated)'`. -/
def truncContent (file : FileObject) : List Char :=
  file.content.take MAX_FILE_SIZE ++ TRUNC_MARKER

/-- The derived record pushed for an oversized file:
`{ ...file, content: truncatedContent, size: truncatedContent.length }`. -/
def truncFile (file : FileObject) : FileObject :=
  { file with content := truncContent file, size := (truncContent file).length }

/-- The `addFile` helper of `selectKeyFiles`: returns the JS boolean result
together with the updated closure state. -/
def addFile (file : FileObject) (s : SelState) : Bool × SelState :=
  if MAX_FILE_SIZE < file.size then
    (decide (s.totalSize + (truncFile file).size < MAX_TOTAL_CONTENT),
     ⟨s.selected ++ [truncFile file], s.totalSize + (truncFile file).size⟩)
  else if MAX_TOTAL_CONTENT < s.totalSize + file.size then
    (false, s)
  else
    (true, ⟨s.selected ++ [file], s.totalSize + file.size⟩)

/-- `for (const file of l) { if (!addFile(file)) break; }` -/
def runAdd : List FileObject → SelState → SelState
  | [], s => s
  | f :: fs, s =>
    let r := addFile f s
    if r.1 then runAdd fs r.2 else r.2

def isPriority1 (f : FileObject) : Bool := PRIORITY_1_FILES.contains (baseNameOf f.path)

def isPriority2 (f : FileObject) : Bool := PRIORITY_2_PATTERNS.contains (baseNameOf f.path)

def isEntryPoint (f : FileObject) : Bool := ENTRY_POINT_PATTERNS.contains (baseNameOf f.path)

/-- JS `f.path.includes(dir)`. -/
def matchesDir (f : FileObject) (d : String) : Bool := containsSub d.data f.path.data

def hasPriorityDir (f : FileObject) : Bool := PRIORITY_DIRECTORIES.any (matchesDir f)

/-- JS `PRIORITY_DIRECTORIES.findIndex(dir => path.includes(dir))`.  (JS returns
`-1` when nothing matches, `List.findIdx` returns the list length; the two are
only ever compared between files that both match some directory, where they
agree.) -/
def dirIndexOf (f : FileObject) : Nat := PRIORITY_DIRECTORIES.findIdx (matchesDir f)

/-- Pass-3 comparator `aDepth - bDepth`: `comparator(a, b) <= 0`. -/
def entryLe (a b : FileObject) : Prop := depthOf a.path ≤ depthOf b.path

instance : DecidableRel entryLe :=
  fun a b => inferInstanceAs (Decidable (depthOf a.path ≤ depthOf b.path))

instance : IsTotal FileObject entryLe := ⟨fun _ _ => Nat.le_total _ _⟩

instance : IsTrans FileObject entryLe := ⟨fun _ _ _ => Nat.le_trans⟩

/-- Pass-4 comparator: directory-priority index first, then path depth. -/
def sourceLe (a b : FileObject) : Prop :=
  dirIndexOf a < dirIndexOf b ∨ (dirIndexOf a = dirIndexOf b ∧ depthOf a.path ≤ depthOf b.path)

instance : DecidableRel sourceLe :=
  fun a b => inferInstanceAs (Decidable (dirIndexOf a < dirIndexOf b ∨
    (dirIndexOf a = dirIndexOf b ∧ depthOf a.path ≤ depthOf b.path)))

instance : IsTotal FileObject sourceLe := by
  constructor
  intro a b
  unfold sourceLe
  omega

instance : IsTrans FileObject sourceLe := by
  constructor
  intro a b c hab hbc
  unfold sourceLe at *
  omega

/-- Fallback-pass comparator `a.path.localeCompare(b.path) <= 0`. -/
def rootLe (a b : FileObject) : Prop := lexLe a.path.data b.path.data = true

instance : DecidableRel rootLe :=
  fun a b => inferInstanceAs (Decidable (lexLe a.path.data b.path.data = true))

def priority1List (files : List FileObject) : List FileObject := files.filter isPriority1

def priority2List (files : List FileObject) : List FileObject := files.filter isPriority2

def entryPointsList (files : List FileObject) : List FileObject :=
  List.insertionSort entryLe (files.filter isEntryPoint)

def sourceFilesList (files : List FileObject) : List FileObject :=
  List.insertionSort sourceLe (files.filter hasPriorityDir)

/-- JS `selectedFiles.some(sf => sf.path === file.path)`. -/
def pathSelected (sel : List FileObject) (p : String) : Bool :=
  sel.any (fun sf => sf.path == p)

/-- The pass-4 loop: at most 20 appended files, skipping (by path) files
already selected. -/
def runPass4 : List FileObject → Nat → SelState → SelState
  | [], _, s => s
  | f :: fs, count, s =>
    if 20 ≤ count then s
    else if pathSelected s.selected f.path then runPass4 fs count s
    else
      let r := addFile f s
      if r.1 then runPass4 fs (count + 1) r.2 else r.2

/-- The fallback-pass candidate list: unselected files of depth ≤ 2, sorted by
path, first 20. -/
def rootFilesList (files : List FileObject) (sel : List FileObject) : List FileObject :=
  (List.insertionSort rootLe
    ((files.filter (fun f => !pathSelected sel f.path)).filter
      (fun f => decide (depthOf f.path ≤ 2)))).take 20

/-- The final closure state of `selectKeyFiles`. -/
def selectState (files : List FileObject) : SelState :=
  let s1 := runAdd (priority1List files) ⟨[], 0⟩
  let s2 := runAdd (priority2List files) s1
  let s3 := runAdd (entryPointsList files) s2
  let s4 := runPass4 (sourceFilesList files) 0 s3
  if s4.selected.length < 5 then runAdd (rootFilesList files s4.selected) s4 else s4

/-- `selectKeyFiles` from `src/lib/fileSelector.ts`. -/
def selectKeyFiles (files : List FileObject) : List FileObject :=
  (selectState files).selected

/-! ## Instrumented selector

Identical to `selectState`, but additionally reports whether every `addFile`
call during the run returned `true` (i.e. no candidate was ever rejected and
no truncated append overflowed the aggregate cap). -/

def runAddI : List FileObject → SelState → SelState × Bool
  | [], s => (s, true)
  | f :: fs, s =>
    let r := addFile f s
    if r.1 then runAddI fs r.2 else (r.2, false)

def runPass4I : List FileObject → Nat → SelState → SelState × Bool
  | [], _, s => (s, true)
  | f :: fs, count, s =>
    if 20 ≤ count then (s, true)
    else if pathSelected s.selected f.path then runPass4I fs count s
    else
      let r := addFile f s
      if r.1 then runPass4I fs (count + 1) r.2 else (r.2, false)

def selectStateI (files : List FileObject) : SelState × Bool :=
  let p1 := runAddI (priority1List files) ⟨[], 0⟩
  let p2 := runAddI (priority2List files) p1.1
  let p3 := runAddI (entryPointsList files) p2.1
  let p4 := runPass4I (sourceFilesList files) 0 p3.1
  if p4.1.selected.length < 5 then
    let p5 := runAddI (rootFilesList files p4.1.selected) p4.1
    (p5.1, p1.2 && p2.2 && p3.2 && p4.2 && p5.2)
  else (p4.1, p1.2 && p2.2 && p3.2 && p4.2)

/-- Whether a whole selection run never has an `addFile` call return `false`. -/
def noRejection (files : List FileObject) : Prop := (selectStateI files).2 = true

instance (files : List FileObject) : Decidable (noRejection files) := by
  unfold noRejection; infer_instance

/-! ## The chunker (`chunkContent`) -/

def MAX_CHUNK_TOKENS : Nat := 4000

def CHARS_PER_TOKEN : Nat := 4

def maxChunkSize : Nat := MAX_CHUNK_TOKENS * CHARS_PER_TOKEN

/-- `ContentChunk` from `src/types/analysis.ts`. -/
structure ContentChunk where
  content : List Char
  fileCount : Nat
  totalSize : Nat
deriving DecidableEq

/-- The rendered block `=== ${file.path} ===\n${file.content}\n\n`. -/
def renderFile (f : FileObject) : List Char :=
  "=== ".data ++ f.path.data ++ " ===\n".data ++ f.content ++ "\n\n".data

/-- The loop state of `chunkContent`: chunks so far, plus the accumulating
`currentChunk` / `currentFileCount` / `currentSize`. -/
structure CState where
  chunks : List ContentChunk
  currentChunk : List Char
  currentFileCount : Nat
  currentSize : Nat

/-- One iteration of the `chunkContent` loop body. -/
def chunkStep (s : CState) (f : FileObject) : CState :=
  let fileContent := renderFile f
  if maxChunkSize < s.currentChunk.length + fileContent.length ∧ 0 < s.currentChunk.length then
    ⟨s.chunks ++ [⟨s.currentChunk, s.currentFileCount, s.currentSize⟩],
     fileContent, 1, f.size⟩
  else
    ⟨s.chunks, s.currentChunk ++ fileContent, s.currentFileCount + 1, s.currentSize + f.size⟩

def chunkLoop : List FileObject → CState → CState
  | [], s => s
  | f :: fs, s => chunkLoop fs (chunkStep s f)

/-- `chunkContent` from the HuggingFace client module. -/
def chunkContent (files : List FileObject) : List ContentChunk :=
  let s := chunkLoop files ⟨[], [], 0, 0⟩
  if 0 < s.currentChunk.length then
    s.chunks ++ [⟨s.currentChunk, s.currentFileCount, s.currentSize⟩]
  else s.chunks

/-- Sum of the `.size` fields of a list of records. -/
def sumSizes (l : List FileObject) : Nat := (l.map (·.size)).sum

/-! ## Derived definitions used in the statements and proofs -/

/-- The record that `addFile` appends when it appends: the truncated derived
record for an oversized file, the original record otherwise. -/
def outFile (f : FileObject) : FileObject :=
  if MAX_FILE_SIZE < f.size then truncFile f else f

/-- The paths of a list of records. -/
def pathsOf (l : List FileObject) : List String := l.map FileObject.path

/-- Concatenation of the rendered blocks of a group of files. -/
def renderAll (g : List FileObject) : List Char := (g.map renderFile).flatten

/-- The chunk that `chunkContent` builds from one group of consecutive files. -/
def mkChunk (g : List FileObject) : ContentChunk := ⟨renderAll g, g.length, sumSizes g⟩

/-- The grouping of the input files performed by the `chunkContent` loop,
tracked as (finished groups, currently accumulating group). -/
def cgLoop : List FileObject → List (List FileObject) × List FileObject →
    List (List FileObject) × List FileObject
  | [], gc => gc
  | f :: fs, (gs, cur) =>
    if maxChunkSize < (renderAll cur).length + (renderFile f).length ∧ cur ≠ [] then
      cgLoop fs (gs ++ [cur], [f])
    else
      cgLoop fs (gs, cur ++ [f])

/-- The groups of consecutive input files that `chunkContent` folds into the
individual chunks. -/
def finalGroups (files : List FileObject) : List (List FileObject) :=
  let gc := cgLoop files ([], [])
  if gc.2 = [] then gc.1 else gc.1 ++ [gc.2]

/-! ## Concrete demonstration inputs -/

/-- 50000-byte `README.md`. -/
def c1f1 : FileObject := ⟨"README.md", List.replicate 50000 'a', 50000, .file⟩

/-- 2000-byte `README`. -/
def c1f2 : FileObject := ⟨"README", List.replicate 2000 'b', 2000, .file⟩

/-- 1000-byte `package.json`. -/
def c1f3 : FileObject := ⟨"package.json", List.replicate 1000 'c', 1000, .file⟩

/-- An input on which the documentation pass rejects `README` (50000 + 2000
exceeds the 51200 aggregate cap) and the configuration pass still appends
`package.json` afterwards. -/
def c1demo : List FileObject := [c1f1, c1f2, c1f3]

/-- 150000-byte `README.md` (oversized). -/
def c2f1 : FileObject := ⟨"README.md", List.replicate 150000 'a', 150000, .file⟩

/-- 150000-byte `package.json` (oversized). -/
def c2f2 : FileObject := ⟨"package.json", List.replicate 150000 'b', 150000, .file⟩

/-- An input with one oversized file in each of two different tiers. -/
def c2demo : List FileObject := [c2f1, c2f2]

/-- 30000-byte `README.md`. -/
def c6f1 : FileObject := ⟨"README.md", List.replicate 30000 'a', 30000, .file⟩

/-- 30000-byte `LICENSE`. -/
def c6f2 : FileObject := ⟨"LICENSE", List.replicate 30000 'b', 30000, .file⟩

/-- 1000-byte `package.json`. -/
def c6f3 : FileObject := ⟨"package.json", List.replicate 1000 'c', 1000, .file⟩

/-- 1000-byte `a/src/README`: a documentation-named file inside a priority
directory. -/
def c6f4 : FileObject := ⟨"a/src/README", List.replicate 1000 'd', 1000, .file⟩

/-- An input whose selection is under the aggregate cap but not idempotent:
the pass-1 rejection of `LICENSE` leaves `a/src/README` to be picked up by
pass 4, and a second selection run moves it into pass 1. -/
def c6demo : List FileObject := [c6f1, c6f2, c6f3, c6f4]

/-- The `chunkContent` loop state built from finished groups `gs` and the
currently accumulating group `cur`. -/
def GState (gs : List (List FileObject)) (cur : List FileObject) : CState :=
  ⟨gs.map mkChunk, renderAll cur, cur.length, sumSizes cur⟩

/-- A tiny one-character file. -/
def wf1 : FileObject := ⟨"a.txt", ['x'], 1, .file⟩

/-- Another tiny one-character file. -/
def wf2 : FileObject := ⟨"b.txt", ['y'], 1, .file⟩

/-- A file whose rendered block alone exceeds the chunk ceiling. -/
def bigf : FileObject := ⟨"big.txt", List.replicate 16000 'a', 16000, .file⟩

/-! ## Basic lemmas about `addFile` and the pass loops -/

theorem addFile_oversized (f : FileObject) (s : SelState) (h : MAX_FILE_SIZE < f.size) :
    addFile f s =
      (decide (s.totalSize + (truncFile f).size < MAX_TOTAL_CONTENT),
       ⟨s.selected ++ [truncFile f], s.totalSize + (truncFile f).size⟩) := by
  simp [addFile, h]

theorem addFile_reject (f : FileObject) (s : SelState) (h : ¬ MAX_FILE_SIZE < f.size)
    (h' : MAX_TOTAL_CONTENT < s.totalSize + f.size) : addFile f s = (false, s) := by
  simp [addFile, h, h']

theorem addFile_small (f : FileObject) (s : SelState) (h : ¬ MAX_FILE_SIZE < f.size)
    (h' : ¬ MAX_TOTAL_CONTENT < s.totalSize + f.size) :
    addFile f s = (true, ⟨s.selected ++ [f], s.totalSize + f.size⟩) := by
  simp [addFile, h, h']

/-- Whenever `addFile` appends, it appends `outFile f`, and whenever it
does not, it leaves the state unchanged. -/
theorem addFile_selected (f : FileObject) (s : SelState) :
    (addFile f s).2.selected = s.selected ++ [outFile f] ∨
      (addFile f s).2 = s := by
  by_cases h : MAX_FILE_SIZE < f.size
  · left; rw [addFile_oversized f s h]; simp [outFile, h]
  · by_cases h' : MAX_TOTAL_CONTENT < s.totalSize + f.size
    · right; rw [addFile_reject f s h h']
    · left; rw [addFile_small f s h h']; simp [outFile, h]

theorem selectKeyFiles_def (files : List FileObject) :
    selectKeyFiles files = (selectState files).selected := rfl

theorem runAdd_halt {f : FileObject} {s s' : SelState} (fs : List FileObject)
    (h : addFile f s = (false, s')) : runAdd (f :: fs) s = s' := by
  simp [runAdd, h]

theorem runAdd_step {f : FileObject} {s s' : SelState} (fs : List FileObject)
    (h : addFile f s = (true, s')) : runAdd (f :: fs) s = runAdd fs s' := by
  simp [runAdd, h]

theorem TRUNC_MARKER_length : TRUNC_MARKER.length = 16 := by decide

theorem truncFile_size (f : FileObject) :
    (truncFile f).size = min f.content.length MAX_FILE_SIZE + TRUNC_MARKER.length := by
  simp [truncFile, truncContent, Nat.min_comm]

theorem truncFile_size_le (f : FileObject) :
    (truncFile f).size ≤ MAX_FILE_SIZE + TRUNC_MARKER.length := by
  rw [truncFile_size]
  have := Nat.min_le_right f.content.length MAX_FILE_SIZE
  omega

theorem c2f1_content_length : c2f1.content.length = 150000 := by
  rw [show c2f1.content = List.replicate 150000 'a' from rfl, List.length_replicate]

theorem c2f2_content_length : c2f2.content.length = 150000 := by
  rw [show c2f2.content = List.replicate 150000 'b' from rfl, List.length_replicate]

theorem c2f1_truncFile_size : (truncFile c2f1).size = 102416 := by
  rw [truncFile_size, c2f1_content_length]; decide

theorem c2f2_truncFile_size : (truncFile c2f2).size = 102416 := by
  rw [truncFile_size, c2f2_content_length]; decide

theorem runAdd_cons (f : FileObject) (fs : List FileObject) (s : SelState) :
    runAdd (f :: fs) s =
      if (addFile f s).1 = true then runAdd fs (addFile f s).2 else (addFile f s).2 := by
  simp only [runAdd, Bool.if_true_left]

theorem runPass4_cons (f : FileObject) (fs : List FileObject) (n : Nat) (s : SelState) :
    runPass4 (f :: fs) n s =
      if 20 ≤ n then s
      else if pathSelected s.selected f.path then runPass4 fs n s
      else if (addFile f s).1 = true then runPass4 fs (n + 1) (addFile f s).2
      else (addFile f s).2 := by
  simp only [runPass4]

/-- `addFile` either appends `outFile f` (adding its size to the total) or
leaves the state unchanged. -/
theorem addFile_cases (f : FileObject) (s : SelState) :
    (addFile f s).2 = ⟨s.selected ++ [outFile f], s.totalSize + (outFile f).size⟩ ∨
      (addFile f s).2 = s := by
  by_cases h : MAX_FILE_SIZE < f.size
  · left; rw [addFile_oversized f s h]; simp [outFile, h]
  · by_cases h' : MAX_TOTAL_CONTENT < s.totalSize + f.size
    · right; rw [addFile_reject f s h h']
    · left; rw [addFile_small f s h h']; simp [outFile, h]

/-- When `addFile` reports success the new running total is at or under the
aggregate cap. -/
theorem addFile_true_le {f : FileObject} {s : SelState} (h : (addFile f s).1 = true) :
    (addFile f s).2.totalSize ≤ MAX_TOTAL_CONTENT := by
  by_cases h1 : MAX_FILE_SIZE < f.size
  · rw [addFile_oversized f s h1] at h ⊢
    dsimp only at h ⊢
    simp only [decide_eq_true_eq] at h
    exact Nat.le_of_lt h
  · by_cases h2 : MAX_TOTAL_CONTENT < s.totalSize + f.size
    · rw [addFile_reject f s h1 h2] at h; simp at h
    · rw [addFile_small f s h1 h2]; dsimp only; omega

/-- When `addFile` reports failure the running total grew by at most one
truncated file. -/
theorem addFile_false_le {f : FileObject} {s : SelState} (h : (addFile f s).1 = false) :
    (addFile f s).2.totalSize ≤ s.totalSize + (MAX_FILE_SIZE + TRUNC_MARKER.length) := by
  by_cases h1 : MAX_FILE_SIZE < f.size
  · rw [addFile_oversized f s h1]
    have := truncFile_size_le f
    dsimp only
    omega
  · by_cases h2 : MAX_TOTAL_CONTENT < s.totalSize + f.size
    · rw [addFile_reject f s h1 h2]; dsimp only; omega
    · rw [addFile_small f s h1 h2] at h; simp at h

theorem sumSizes_append (l : List FileObject) (f : FileObject) :
    sumSizes (l ++ [f]) = sumSizes l + f.size := by
  simp [sumSizes]

theorem sumSizes_pair (a b : FileObject) : sumSizes [a, b] = a.size + b.size := by
  simp [sumSizes]

/-- One `addFile` call preserves `totalSize = sum of the sizes of selected`. -/
theorem addFile_sum {f : FileObject} {s : SelState} (h : s.totalSize = sumSizes s.selected) :
    (addFile f s).2.totalSize = sumSizes (addFile f s).2.selected := by
  rcases addFile_cases f s with h' | h' <;> rw [h']
  · simp [sumSizes_append, h]
  · exact h

theorem runAdd_sum (l : List FileObject) (s : SelState)
    (h : s.totalSize = sumSizes s.selected) :
    (runAdd l s).totalSize = sumSizes (runAdd l s).selected := by
  induction l generalizing s with
  | nil => exact h
  | cons f fs ih =>
    rw [runAdd_cons]
    by_cases hb : (addFile f s).1 = true
    · rw [if_pos hb]; exact ih _ (addFile_sum h)
    · rw [if_neg hb]; exact addFile_sum h

theorem runPass4_sum (l : List FileObject) (n : Nat) (s : SelState)
    (h : s.totalSize = sumSizes s.selected) :
    (runPass4 l n s).totalSize = sumSizes (runPass4 l n s).selected := by
  induction l generalizing n s with
  | nil => exact h
  | cons f fs ih =>
    rw [runPass4_cons]
    by_cases h20 : 20 ≤ n
    · rw [if_pos h20]; exact h
    · rw [if_neg h20]
      by_cases hsel : pathSelected s.selected f.path
      · rw [if_pos hsel]; exact ih _ _ h
      · rw [if_neg hsel]
        by_cases hb : (addFile f s).1 = true
        · rw [if_pos hb]; exact ih _ _ (addFile_sum h)
        · rw [if_neg hb]; exact addFile_sum h

/-- Each pass loop raises the running total at most to
`max (starting total) (aggregate cap)` plus one truncated file. -/
theorem runAdd_total_le (l : List FileObject) (s : SelState) :
    (runAdd l s).totalSize ≤
      max s.totalSize MAX_TOTAL_CONTENT + (MAX_FILE_SIZE + TRUNC_MARKER.length) := by
  induction l generalizing s with
  | nil =>
    have := Nat.le_max_left s.totalSize MAX_TOTAL_CONTENT
    simp only [runAdd]; omega
  | cons f fs ih =>
    rw [runAdd_cons]
    by_cases hb : (addFile f s).1 = true
    · rw [if_pos hb]
      refine le_trans (ih _) ?_
      have := addFile_true_le hb
      have h2 : max (addFile f s).2.totalSize MAX_TOTAL_CONTENT = MAX_TOTAL_CONTENT :=
        Nat.max_eq_right this
      have := Nat.le_max_right s.totalSize MAX_TOTAL_CONTENT
      omega
    · rw [if_neg hb]
      have := addFile_false_le (Bool.eq_false_iff.mpr hb)
      have := Nat.le_max_left s.totalSize MAX_TOTAL_CONTENT
      omega

theorem runPass4_total_le (l : List FileObject) (n : Nat) (s : SelState) :
    (runPass4 l n s).totalSize ≤
      max s.totalSize MAX_TOTAL_CONTENT + (MAX_FILE_SIZE + TRUNC_MARKER.length) := by
  induction l generalizing n s with
  | nil =>
    have := Nat.le_max_left s.totalSize MAX_TOTAL_CONTENT
    simp only [runPass4]; omega
  | cons f fs ih =>
    rw [runPass4_cons]
    by_cases h20 : 20 ≤ n
    · rw [if_pos h20]
      have := Nat.le_max_left s.totalSize MAX_TOTAL_CONTENT
      omega
    · rw [if_neg h20]
      by_cases hsel : pathSelected s.selected f.path
      · rw [if_pos hsel]; exact ih _ _
      · rw [if_neg hsel]
        by_cases hb : (addFile f s).1 = true
        · rw [if_pos hb]
          refine le_trans (ih _ _) ?_
          have := addFile_true_le hb
          have h2 : max (addFile f s).2.totalSize MAX_TOTAL_CONTENT = MAX_TOTAL_CONTENT :=
            Nat.max_eq_right this
          have := Nat.le_max_right s.totalSize MAX_TOTAL_CONTENT
          omega
        · rw [if_neg hb]
          have := addFile_false_le (Bool.eq_false_iff.mpr hb)
          have := Nat.le_max_left s.totalSize MAX_TOTAL_CONTENT
          omega

/-- Computation rule for `selectState` in terms of results of the five
passes. -/
theorem selectState_steps (files : List FileObject) (s1 s2 s3 s4 : SelState)
    (h1 : runAdd (priority1List files) (SelState.mk [] 0) = s1)
    (h2 : runAdd (priority2List files) s1 = s2)
    (h3 : runAdd (entryPointsList files) s2 = s3)
    (h4 : runPass4 (sourceFilesList files) 0 s3 = s4) :
    selectState files =
      if s4.selected.length < 5 then runAdd (rootFilesList files s4.selected) s4
      else s4 := by
  subst h1; subst h2; subst h3; subst h4; rfl

/-- Linear-arithmetic helper for chaining per-pass budget bounds. -/
theorem max_chain {a b c k n : Nat} (h : b ≤ max a c + k) (ha : a ≤ c + n * k) :
    b ≤ c + (n + 1) * k := by
  have hnk : (n + 1) * k = n * k + k := by ring
  rcases Nat.le_total a c with h' | h'
  · rw [Nat.max_eq_right h'] at h; omega
  · rw [Nat.max_eq_left h'] at h; omega

/-- The running total of a whole selection run never exceeds the aggregate
cap by more than five truncated files (one per pass). -/
theorem selectState_total_le (files : List FileObject) :
    (selectState files).totalSize ≤
      MAX_TOTAL_CONTENT + 5 * (MAX_FILE_SIZE + TRUNC_MARKER.length) := by
  have t1 : (runAdd (priority1List files) (SelState.mk [] 0)).totalSize ≤
      MAX_TOTAL_CONTENT + 1 * (MAX_FILE_SIZE + TRUNC_MARKER.length) := by
    have h := runAdd_total_le (priority1List files) (SelState.mk [] 0)
    exact max_chain h (by dsimp only; omega)
  have t2 := max_chain (runAdd_total_le (priority2List files) _) t1
  have t3 := max_chain (runAdd_total_le (entryPointsList files) _) t2
  have t4 := max_chain (runPass4_total_le (sourceFilesList files) 0 _) t3
  have t5 := max_chain
    (runAdd_total_le (rootFilesList files (runPass4 (sourceFilesList files) 0
      (runAdd (entryPointsList files) (runAdd (priority2List files)
        (runAdd (priority1List files) (SelState.mk [] 0))))).selected) _) t4
  unfold selectState
  dsimp only
  by_cases h5 : (runPass4 (sourceFilesList files) 0
      (runAdd (entryPointsList files) (runAdd (priority2List files)
        (runAdd (priority1List files) (SelState.mk [] 0))))).selected.length < 5
  · rw [if_pos h5]; omega
  · rw [if_neg h5]; omega

/-- The selection run's final total equals the sum of the selected sizes. -/
theorem selectState_sum (files : List FileObject) :
    (selectState files).totalSize = sumSizes (selectState files).selected := by
  unfold selectState
  by_cases h5 : (runPass4 (sourceFilesList files) 0
      (runAdd (entryPointsList files) (runAdd (priority2List files)
        (runAdd (priority1List files) (SelState.mk [] 0))))).selected.length < 5
  · simp only [if_pos h5]
    exact runAdd_sum _ _ (runPass4_sum _ _ _ (runAdd_sum _ _ (runAdd_sum _ _
      (runAdd_sum _ _ rfl))))
  · simp only [if_neg h5]
    exact runPass4_sum _ _ _ (runAdd_sum _ _ (runAdd_sum _ _ (runAdd_sum _ _ rfl)))

/-! ## C3: the asymmetric append-then-check budget policy -/

/-- **C3.** The budget check is asymmetric exactly as claimed: a candidate
whose size is over the per-file cap is always appended in truncated form,
whatever the remaining aggregate budget (first conjunct, for every state `s`);
a candidate at or under the per-file cap whose size would push the running
total strictly above the aggregate cap is rejected without being appended
(second conjunct); and an oversized candidate whose truncated append carries
the running total to or past the aggregate cap is still appended, the overflow
only stopping the pass afterwards — no later candidate of the pass is
evaluated (third conjunct). -/
theorem c3_append_then_check :
    (∀ (f : FileObject) (s : SelState), MAX_FILE_SIZE < f.size →
      (addFile f s).2.selected = s.selected ++ [truncFile f] ∧
        (addFile f s).2.totalSize = s.totalSize + (truncFile f).size) ∧
    (∀ (f : FileObject) (s : SelState), f.size ≤ MAX_FILE_SIZE →
      MAX_TOTAL_CONTENT < s.totalSize + f.size → addFile f s = (false, s)) ∧
    (∀ (f : FileObject) (s : SelState) (fs : List FileObject), MAX_FILE_SIZE < f.size →
      MAX_TOTAL_CONTENT ≤ s.totalSize + (truncFile f).size →
      runAdd (f :: fs) s =
        ⟨s.selected ++ [truncFile f], s.totalSize + (truncFile f).size⟩) := by
  refine ⟨fun f s h => ?_, fun f s h h' => ?_, fun f s fs h h' => ?_⟩
  · rw [addFile_oversized f s h]; exact ⟨rfl, rfl⟩
  · exact addFile_reject f s (by omega) h'
  · apply runAdd_halt
    rw [addFile_oversized f s h]
    simp only [Prod.mk.injEq, decide_eq_false_iff_not, Nat.not_lt]
    exact ⟨h', trivial⟩

/-- Closed instantiation of `c3_append_then_check`: the oversized 150000-byte
`README.md` is appended into the empty state (which then already overflows the
aggregate cap), a 2000-byte `README` is rejected at running total 50000, and a
pass starting with the oversized file stops right after appending it. -/
theorem c3_append_then_check_witness :
    (addFile c2f1 (SelState.mk [] 0)).2.selected =
      (SelState.mk [] 0).selected ++ [truncFile c2f1] ∧
    addFile c1f2 (SelState.mk [c1f1] 50000) = (false, SelState.mk [c1f1] 50000) ∧
    runAdd [c2f1, c2f2] (SelState.mk [] 0) =
      SelState.mk ((SelState.mk [] 0).selected ++ [truncFile c2f1])
        ((SelState.mk [] 0).totalSize + (truncFile c2f1).size) :=
  ⟨(c3_append_then_check.1 c2f1 (SelState.mk [] 0) (by decide)).1,
   c3_append_then_check.2.1 c1f2 (SelState.mk [c1f1] 50000) (by decide) (by decide),
   c3_append_then_check.2.2 c2f1 (SelState.mk [] 0) [c2f2] (by decide)
     (by rw [c2f1_truncFile_size]; decide)⟩

/-! ## C1: what a rejection terminates -/

/-- **C1 (counterexample).** A rejection does not end the whole selection
run.  On `c1demo = [README.md (50000), README (2000), package.json (1000)]`,
pass 1's candidates are `[c1f1, c1f2]`; after appending `c1f1` the running
total is 50000 and `addFile` rejects `c1f2` (50000 + 2000 > 51200), ending
pass 1 with only `c1f1` selected — yet the final output also contains
`package.json`, appended by the configuration pass after the rejection. -/
theorem c1_counterexample :
    priority1List c1demo = [c1f1, c1f2] ∧
    addFile c1f2 (SelState.mk [c1f1] 50000) = (false, SelState.mk [c1f1] 50000) ∧
    runAdd (priority1List c1demo) (SelState.mk [] 0) = SelState.mk [c1f1] 50000 ∧
    selectKeyFiles c1demo = [c1f1, c1f3] :=
  ⟨rfl, rfl, rfl, rfl⟩

/-- **C1 (amended).** Once `addFile` rejects a candidate, no further candidate
is appended in the pass in which the rejection occurred (the loop breaks
immediately, before looking at any further candidate of that pass); but the
rejection is not terminal for the whole run — later passes still run, and on
`c1demo` the configuration pass appends `package.json` after pass 1's
rejection of `README`. -/
theorem c1_rejection_halts_current_pass :
    (∀ (f : FileObject) (s s' : SelState) (fs : List FileObject),
      addFile f s = (false, s') → runAdd (f :: fs) s = s') ∧
    selectKeyFiles c1demo = [c1f1, c1f3] :=
  ⟨fun _ _ _ fs h => runAdd_halt fs h, rfl⟩

/-- Closed instantiation of `c1_rejection_halts_current_pass`: the rejection
of the 2000-byte `README` at running total 50000 ends that pass at once. -/
theorem c1_rejection_halts_current_pass_witness :
    runAdd [c1f2] (SelState.mk [c1f1] 50000) = SelState.mk [c1f1] 50000 :=
  c1_rejection_halts_current_pass.1 c1f2 (SelState.mk [c1f1] 50000)
    (SelState.mk [c1f1] 50000) [] rfl

/-! ## C2: budget accounting invariants -/

/-- **C2 (counterexample).** The aggregate total can exceed the cap by more
than the overflow of one single truncated-file append.  On `c2demo`, two
oversized files sitting in two different tiers are each appended in truncated
form (the first append already exhausts the budget and ends pass 1, but pass 2
runs anyway and its truncation path appends unconditionally): the output's
total size is 204832 = 2 × 102416, which exceeds the cap (51200) by more than
one maximal truncated append (102416). -/
theorem c2_counterexample :
    selectKeyFiles c2demo = [truncFile c2f1, truncFile c2f2] ∧
    sumSizes (selectKeyFiles c2demo) = 204832 ∧
    MAX_TOTAL_CONTENT + (MAX_FILE_SIZE + TRUNC_MARKER.length) < 204832 := by
  have ha1 : addFile c2f1 (SelState.mk [] 0) =
      (false, SelState.mk [truncFile c2f1] 102416) := by
    rw [addFile_oversized _ _ (by decide), c2f1_truncFile_size]
    rfl
  have ha2 : addFile c2f2 (SelState.mk [truncFile c2f1] 102416) =
      (false, SelState.mk [truncFile c2f1, truncFile c2f2] 204832) := by
    rw [addFile_oversized _ _ (by decide), c2f2_truncFile_size]
    rfl
  have hp1 : runAdd (priority1List c2demo) (SelState.mk [] 0) =
      SelState.mk [truncFile c2f1] 102416 := by
    rw [show priority1List c2demo = [c2f1] from rfl]
    exact runAdd_halt [] ha1
  have hp2 : runAdd (priority2List c2demo) (SelState.mk [truncFile c2f1] 102416) =
      SelState.mk [truncFile c2f1, truncFile c2f2] 204832 := by
    rw [show priority2List c2demo = [c2f2] from rfl]
    exact runAdd_halt [] ha2
  have hp3 : runAdd (entryPointsList c2demo)
      (SelState.mk [truncFile c2f1, truncFile c2f2] 204832) =
      SelState.mk [truncFile c2f1, truncFile c2f2] 204832 := by
    rw [show entryPointsList c2demo = [] from rfl]
    rfl
  have hp4 : runPass4 (sourceFilesList c2demo) 0
      (SelState.mk [truncFile c2f1, truncFile c2f2] 204832) =
      SelState.mk [truncFile c2f1, truncFile c2f2] 204832 := by
    rw [show sourceFilesList c2demo = [] from rfl]
    rfl
  have hsel : selectState c2demo = SelState.mk [truncFile c2f1, truncFile c2f2] 204832 := by
    rw [selectState_steps c2demo _ _ _ _ hp1 hp2 hp3 hp4]
    rw [if_pos (by decide)]
    rw [show rootFilesList c2demo
        (SelState.mk [truncFile c2f1, truncFile c2f2] 204832).selected = [] from rfl]
    rfl
  have hout : selectKeyFiles c2demo = [truncFile c2f1, truncFile c2f2] :=
    (selectKeyFiles_def c2demo).trans
      ((congrArg SelState.selected hsel).trans
        (rfl : (SelState.mk [truncFile c2f1, truncFile c2f2] 204832).selected
          = [truncFile c2f1, truncFile c2f2]))
  refine ⟨hout, ?_, by decide⟩
  exact (congrArg sumSizes hout).trans
    ((sumSizes_pair (truncFile c2f1) (truncFile c2f2)).trans
      (by rw [c2f1_truncFile_size, c2f2_truncFile_size]))

/-- **C2 (amended).** The bookkeeping half of the claim holds: `addFile`
preserves `totalSize = sum of the sizes of the selected records` (so it holds
at every point of a run), and the final total equals the sum of the output
sizes.  The overflow bound must be weakened from one truncated append per run
to one truncated append per pass: the sum of the output sizes never exceeds
the aggregate cap by more than five truncated appends (the per-run version is
refuted by `c2demo`). -/
theorem c2_budget_invariants :
    (∀ (f : FileObject) (s : SelState), s.totalSize = sumSizes s.selected →
      (addFile f s).2.totalSize = sumSizes (addFile f s).2.selected) ∧
    (∀ files : List FileObject,
      (selectState files).totalSize = sumSizes (selectKeyFiles files)) ∧
    (∀ files : List FileObject,
      sumSizes (selectKeyFiles files) ≤
        MAX_TOTAL_CONTENT + 5 * (MAX_FILE_SIZE + TRUNC_MARKER.length)) :=
  ⟨fun _ _ h => addFile_sum h,
   fun files => selectState_sum files,
   fun files => by
    have h := selectState_total_le files
    rw [selectState_sum files] at h
    exact h⟩

/-- Closed instantiation of `c2_budget_invariants`: one `addFile` call on the
empty state preserves the bookkeeping invariant. -/
theorem c2_budget_invariants_witness :
    (addFile c1f1 (SelState.mk [] 0)).2.totalSize =
      sumSizes (addFile c1f1 (SelState.mk [] 0)).2.selected :=
  c2_budget_invariants.1 c1f1 (SelState.mk [] 0) rfl

/-! ## C4: oversized files are truncated, never dropped -/

/-- **C4.** Every oversized candidate (size strictly over the 100 KiB per-file
cap) that the selector evaluates is appended as a derived record — never
dropped — whatever the state: the derived record's content is the first
`MAX_FILE_SIZE` characters of the original content followed by the truncation
marker, its recorded size is exactly the truncated content's length (which is
`MAX_FILE_SIZE` plus the marker length as soon as the original content is long
enough), and its other fields (path, type) are those of the original record,
which itself is left unmodified. -/
theorem c4_truncated_inclusion (f : FileObject) (s : SelState)
    (h : MAX_FILE_SIZE < f.size) :
    (addFile f s).2.selected = s.selected ++ [truncFile f] ∧
    (truncFile f).content = f.content.take MAX_FILE_SIZE ++ TRUNC_MARKER ∧
    (truncFile f).size = (truncFile f).content.length ∧
    (truncFile f).path = f.path ∧
    (truncFile f).type = f.type ∧
    (MAX_FILE_SIZE ≤ f.content.length →
      (truncFile f).size = MAX_FILE_SIZE + TRUNC_MARKER.length) := by
  refine ⟨((addFile_oversized f s h) ▸ rfl), rfl, rfl, rfl, rfl, fun hlen => ?_⟩
  rw [truncFile_size, Nat.min_eq_right hlen]

/-- Closed instantiation of `c4_truncated_inclusion` at the 150000-byte
`README.md` and the empty state. -/
theorem c4_truncated_inclusion_witness :
    (addFile c2f1 (SelState.mk [] 0)).2.selected =
      (SelState.mk [] 0).selected ++ [truncFile c2f1] ∧
    (truncFile c2f1).size = MAX_FILE_SIZE + TRUNC_MARKER.length :=
  ⟨(c4_truncated_inclusion c2f1 (SelState.mk [] 0) (by decide)).1,
   (c4_truncated_inclusion c2f1 (SelState.mk [] 0) (by decide)).2.2.2.2.2
     (by rw [c2f1_content_length]; decide)⟩

/-! ## Chunker machinery -/

theorem renderFile_length (f : FileObject) :
    (renderFile f).length = f.path.data.length + f.content.length + 11 := by
  simp only [renderFile, List.length_append, List.length_cons, List.length_nil]
  omega

theorem renderFile_length_pos (f : FileObject) : 0 < (renderFile f).length := by
  rw [renderFile_length]; omega

theorem renderAll_nil : renderAll [] = [] := rfl

theorem renderAll_single (f : FileObject) : renderAll [f] = renderFile f := by
  simp [renderAll]

theorem renderAll_append_one (g : List FileObject) (f : FileObject) :
    renderAll (g ++ [f]) = renderAll g ++ renderFile f := by
  simp [renderAll]

theorem renderAll_eq_nil_iff (g : List FileObject) : renderAll g = [] ↔ g = [] := by
  cases g with
  | nil => simp [renderAll]
  | cons f fs =>
    simp only [renderAll, List.map_cons, List.flatten_cons]
    constructor
    · intro h
      rcases List.append_eq_nil.mp h with ⟨h1, _⟩
      have hp := renderFile_length_pos f
      rw [h1] at hp
      simp at hp
    · intro h; cases h

theorem renderAll_length_pos {g : List FileObject} (h : g ≠ []) :
    0 < (renderAll g).length := by
  cases hr : renderAll g with
  | nil => exact absurd ((renderAll_eq_nil_iff g).mp hr) h
  | cons c cs => simp

theorem chunkStep_state (gs : List (List FileObject)) (cur : List FileObject)
    (f : FileObject) :
    chunkStep (GState gs cur) f =
      if maxChunkSize < (renderAll cur).length + (renderFile f).length ∧ cur ≠ [] then
        GState (gs ++ [cur]) [f]
      else GState gs (cur ++ [f]) := by
  unfold chunkStep GState
  by_cases hc : maxChunkSize < (renderAll cur).length + (renderFile f).length ∧ cur ≠ []
  · rw [if_pos hc, if_pos ⟨hc.1, renderAll_length_pos hc.2⟩]
    simp [mkChunk, renderAll_single, sumSizes]
  · rw [if_neg hc]
    by_cases hcur : cur = []
    · subst hcur
      rw [if_neg (by simp [renderAll])]
      simp [renderAll, sumSizes]
    · have hle : ¬ maxChunkSize < (renderAll cur).length + (renderFile f).length := by
        intro h; exact hc ⟨h, hcur⟩
      rw [if_neg (by simp [hle])]
      simp [renderAll_append_one, sumSizes_append, sumSizes]

theorem chunkLoop_state (fs : List FileObject) (gs : List (List FileObject))
    (cur : List FileObject) :
    chunkLoop fs (GState gs cur) =
      GState (cgLoop fs (gs, cur)).1 (cgLoop fs (gs, cur)).2 := by
  induction fs generalizing gs cur with
  | nil => rfl
  | cons f fs ih =>
    show chunkLoop fs (chunkStep (GState gs cur) f) = _
    rw [chunkStep_state]
    by_cases hc : maxChunkSize < (renderAll cur).length + (renderFile f).length ∧ cur ≠ []
    · rw [if_pos hc, ih]
      have : cgLoop (f :: fs) (gs, cur) = cgLoop fs (gs ++ [cur], [f]) := by
        show (if maxChunkSize < (renderAll cur).length + (renderFile f).length ∧ cur ≠ []
          then cgLoop fs (gs ++ [cur], [f]) else cgLoop fs (gs, cur ++ [f])) = _
        rw [if_pos hc]
      rw [this]
    · rw [if_neg hc, ih]
      have : cgLoop (f :: fs) (gs, cur) = cgLoop fs (gs, cur ++ [f]) := by
        show (if maxChunkSize < (renderAll cur).length + (renderFile f).length ∧ cur ≠ []
          then cgLoop fs (gs ++ [cur], [f]) else cgLoop fs (gs, cur ++ [f])) = _
        rw [if_neg hc]
      rw [this]

theorem finalGroups_def (files : List FileObject) :
    finalGroups files =
      if (cgLoop files ([], [])).2 = [] then (cgLoop files ([], [])).1
      else (cgLoop files ([], [])).1 ++ [(cgLoop files ([], [])).2] := rfl

theorem cgLoop_cons (f : FileObject) (fs : List FileObject)
    (gs : List (List FileObject)) (cur : List FileObject) :
    cgLoop (f :: fs) (gs, cur) =
      if maxChunkSize < (renderAll cur).length + (renderFile f).length ∧ cur ≠ [] then
        cgLoop fs (gs ++ [cur], [f])
      else cgLoop fs (gs, cur ++ [f]) := rfl

/-- `chunkContent` maps `mkChunk` over the groups computed by `cgLoop`. -/
theorem chunkContent_groups (files : List FileObject) :
    chunkContent files = (finalGroups files).map mkChunk := by
  unfold chunkContent finalGroups
  have h0 : (⟨[], [], 0, 0⟩ : CState) = GState [] [] := rfl
  rw [h0, chunkLoop_state]
  by_cases hcur : (cgLoop files ([], [])).2 = []
  · simp [GState, hcur, renderAll]
  · have hp := renderAll_length_pos hcur
    simp [GState, hcur, hp, mkChunk]

/-- Coverage: the groups concatenate back to the processed input. -/
theorem cgLoop_coverage (fs : List FileObject) (gs : List (List FileObject))
    (cur : List FileObject) :
    (cgLoop fs (gs, cur)).1.flatten ++ (cgLoop fs (gs, cur)).2 =
      gs.flatten ++ cur ++ fs := by
  induction fs generalizing gs cur with
  | nil => simp [cgLoop]
  | cons f fs ih =>
    rw [cgLoop_cons]
    split
    · rw [ih]; simp
    · rw [ih]; simp

/-- All finished groups are non-empty. -/
theorem cgLoop_nonempty (fs : List FileObject) (gs : List (List FileObject))
    (cur : List FileObject) (hgs : ∀ g ∈ gs, g ≠ []) :
    ∀ g ∈ (cgLoop fs (gs, cur)).1, g ≠ [] := by
  induction fs generalizing gs cur with
  | nil => exact hgs
  | cons f fs ih =>
    rw [cgLoop_cons]
    split
    · rename_i hc
      refine ih _ _ fun g hg => ?_
      rcases List.mem_append.mp hg with h | h
      · exact hgs g h
      · rw [List.mem_singleton.mp h]; exact hc.2
    · exact ih _ _ hgs

/-- The flattened final groups give back the input sequence. -/
theorem finalGroups_flatten (files : List FileObject) :
    (finalGroups files).flatten = files := by
  have hcov := cgLoop_coverage files [] []
  simp only [List.flatten_nil, List.nil_append] at hcov
  rw [finalGroups_def]
  split
  · rename_i h
    rw [h, List.append_nil] at hcov
    exact hcov
  · rw [List.flatten_append]
    simp only [List.flatten_cons, List.flatten_nil, List.append_nil]
    exact hcov

/-- Every final group is non-empty. -/
theorem finalGroups_nonempty (files : List FileObject) :
    ∀ g ∈ finalGroups files, g ≠ [] := by
  rw [finalGroups_def]
  split
  · exact cgLoop_nonempty files [] [] (by simp)
  · rename_i h
    intro g hg
    rcases List.mem_append.mp hg with h' | h'
    · exact cgLoop_nonempty files [] [] (by simp) g h'
    · rw [List.mem_singleton.mp h']
      exact h

/-- Size invariant of the grouping: a group of two or more files renders
within the chunk ceiling. -/
theorem cgLoop_size_inv (fs : List FileObject) (gs : List (List FileObject))
    (cur : List FileObject)
    (hgs : ∀ g ∈ gs, 2 ≤ g.length → (renderAll g).length ≤ maxChunkSize)
    (hcur : 2 ≤ cur.length → (renderAll cur).length ≤ maxChunkSize) :
    (∀ g ∈ (cgLoop fs (gs, cur)).1, 2 ≤ g.length → (renderAll g).length ≤ maxChunkSize) ∧
      (2 ≤ (cgLoop fs (gs, cur)).2.length →
        (renderAll (cgLoop fs (gs, cur)).2).length ≤ maxChunkSize) := by
  induction fs generalizing gs cur with
  | nil => exact ⟨hgs, hcur⟩
  | cons f fs ih =>
    rw [cgLoop_cons]
    split
    · rename_i hc
      refine ih _ _ (fun g hg => ?_) (fun h2 => by simp at h2)
      rcases List.mem_append.mp hg with h | h
      · exact hgs g h
      · rw [List.mem_singleton.mp h]; exact hcur
    · rename_i hc
      refine ih _ _ hgs (fun h2 => ?_)
      by_cases hcur0 : cur = []
      · subst hcur0
        simp at h2
      · rw [renderAll_append_one, List.length_append]
        by_contra hgt
        exact hc ⟨Nat.lt_of_not_le hgt, hcur0⟩

/-- Oversized-file invariant of the grouping: a group containing a file whose
rendered block alone exceeds the ceiling is that file's singleton. -/
theorem cgLoop_solo_inv (fs : List FileObject) (gs : List (List FileObject))
    (cur : List FileObject)
    (hgs : ∀ g ∈ gs, ∀ f ∈ g, maxChunkSize < (renderFile f).length → g = [f])
    (hcur : ∀ f ∈ cur, maxChunkSize < (renderFile f).length → cur = [f]) :
    (∀ g ∈ (cgLoop fs (gs, cur)).1, ∀ f ∈ g,
        maxChunkSize < (renderFile f).length → g = [f]) ∧
      (∀ f ∈ (cgLoop fs (gs, cur)).2,
        maxChunkSize < (renderFile f).length → (cgLoop fs (gs, cur)).2 = [f]) := by
  induction fs generalizing gs cur with
  | nil => exact ⟨hgs, hcur⟩
  | cons f fs ih =>
    rw [cgLoop_cons]
    split
    · rename_i hc
      refine ih _ _ (fun g hg => ?_) (fun x hx _ => ?_)
      · rcases List.mem_append.mp hg with h | h
        · exact hgs g h
        · rw [List.mem_singleton.mp h]; exact hcur
      · rw [List.mem_singleton.mp hx]
    · rename_i hc
      refine ih _ _ hgs (fun x hx hbig => ?_)
      by_cases hcur0 : cur = []
      · subst hcur0
        simp only [List.nil_append] at hx ⊢
        rw [List.mem_singleton.mp hx]
      · have hsum : (renderAll cur).length + (renderFile f).length ≤ maxChunkSize := by
          by_contra hgt
          exact hc ⟨Nat.lt_of_not_le hgt, hcur0⟩
        rcases List.mem_append.mp hx with hxc | hxf
        · have hx1 := hcur x hxc hbig
          rw [hx1] at hsum
          rw [renderAll_single] at hsum
          have := renderFile_length_pos f
          omega
        · rw [List.mem_singleton.mp hxf] at hbig
          have := renderAll_length_pos hcur0
          omega

/-- Size invariant transported to the final groups. -/
theorem finalGroups_size (files : List FileObject) :
    ∀ g ∈ finalGroups files, 2 ≤ g.length → (renderAll g).length ≤ maxChunkSize := by
  have h := cgLoop_size_inv files [] [] (by simp) (by simp)
  rw [finalGroups_def]
  split
  · exact h.1
  · intro g hg
    rcases List.mem_append.mp hg with h' | h'
    · exact h.1 g h'
    · rw [List.mem_singleton.mp h']
      exact h.2

/-- Oversized-file invariant transported to the final groups. -/
theorem finalGroups_solo (files : List FileObject) :
    ∀ g ∈ finalGroups files, ∀ f ∈ g,
      maxChunkSize < (renderFile f).length → g = [f] := by
  have h := cgLoop_solo_inv files [] [] (by simp) (by simp)
  rw [finalGroups_def]
  split
  · exact h.1
  · intro g hg
    rcases List.mem_append.mp hg with h' | h'
    · exact h.1 g h'
    · rw [List.mem_singleton.mp h']
      exact h.2

/-- The chunks' `fileCount` fields sum to the number of input files. -/
theorem chunk_fileCount_sum (files : List FileObject) :
    ((chunkContent files).map ContentChunk.fileCount).sum = files.length := by
  rw [chunkContent_groups, List.map_map]
  have hm : (ContentChunk.fileCount ∘ mkChunk) = List.length := by
    funext g; rfl
  rw [hm, ← List.length_flatten, finalGroups_flatten]

/-! ## C5: the chunker produces an in-order partition -/

/-- **C5.** `chunkContent` produces an in-order partition of its input: the
output is `mkChunk` mapped over a list of groups whose concatenation is
exactly the input (so chunks appear in input order and every input file is
folded into exactly one chunk, and by definition of `mkChunk` each chunk's
`fileCount` is its group's length, its `totalSize` the sum of the group's
original `.size` fields, and its `content` the concatenation of the group's
rendered blocks); every chunk is non-empty, the `fileCount` fields sum to the
input length, and the empty input yields zero chunks. -/
theorem c5_chunk_partition (files : List FileObject) :
    chunkContent files = (finalGroups files).map mkChunk ∧
    (finalGroups files).flatten = files ∧
    (∀ g ∈ finalGroups files, g ≠ []) ∧
    (∀ c ∈ chunkContent files, 0 < c.fileCount) ∧
    ((chunkContent files).map ContentChunk.fileCount).sum = files.length ∧
    chunkContent ([] : List FileObject) = [] := by
  refine ⟨chunkContent_groups files, finalGroups_flatten files, finalGroups_nonempty files,
    ?_, chunk_fileCount_sum files, rfl⟩
  intro c hc
  rw [chunkContent_groups] at hc
  obtain ⟨g, hg, rfl⟩ := List.mem_map.mp hc
  have := finalGroups_nonempty files g hg
  show 0 < g.length
  exact List.length_pos.mpr this

/-- Closed instantiation of `c5_chunk_partition` at a one-file input: the
singleton group is non-empty, the fileCounts sum to 1, and the empty input
yields zero chunks. -/
theorem c5_chunk_partition_witness :
    (finalGroups [wf1]).flatten = [wf1] ∧
    ((chunkContent [wf1]).map ContentChunk.fileCount).sum = 1 ∧
    chunkContent ([] : List FileObject) = [] :=
  ⟨(c5_chunk_partition [wf1]).2.1,
   (c5_chunk_partition [wf1]).2.2.2.2.1,
   (c5_chunk_partition [wf1]).2.2.2.2.2⟩

/-! ## C8: an oversized file gets a chunk of its own -/

/-- **C8.** A file whose rendered block alone exceeds the chunk ceiling is
never split across chunks: it ends up as the sole file of a chunk whose
content is exactly the file's rendered block (and hence exceeds the ceiling),
and no file of the input is dropped (the fileCounts still sum to the input
length, so processing of the remaining files continues normally). -/
theorem c8_oversized_sole_chunk (files : List FileObject) (f : FileObject)
    (hf : f ∈ files) (hbig : maxChunkSize < (renderFile f).length) :
    (∃ c ∈ chunkContent files, c.content = renderFile f ∧ c.fileCount = 1 ∧
      maxChunkSize < c.content.length) ∧
    ((chunkContent files).map ContentChunk.fileCount).sum = files.length := by
  refine ⟨?_, chunk_fileCount_sum files⟩
  rw [← finalGroups_flatten files] at hf
  obtain ⟨g, hg, hfg⟩ := List.mem_flatten.mp hf
  have hsolo := finalGroups_solo files g hg f hfg hbig
  subst hsolo
  refine ⟨mkChunk [f], ?_, ?_, rfl, ?_⟩
  · rw [chunkContent_groups]
    exact List.mem_map_of_mem mkChunk hg
  · show renderAll [f] = renderFile f
    exact renderAll_single f
  · show maxChunkSize < (renderAll [f]).length
    rw [renderAll_single]
    exact hbig

/-- Closed instantiation of `c8_oversized_sole_chunk` at a single 16000-byte
file whose rendered block has length 16018 > 16000. -/
theorem c8_oversized_sole_chunk_witness :
    ∃ c ∈ chunkContent [bigf], c.content = renderFile bigf ∧ c.fileCount = 1 ∧
      maxChunkSize < c.content.length :=
  (c8_oversized_sole_chunk [bigf] bigf (List.mem_singleton.mpr rfl)
    (by
      rw [renderFile_length,
        show bigf.content = List.replicate 16000 'a' from rfl, List.length_replicate]
      decide)).1

/-! ## C10: multi-file chunks respect the ceiling -/

/-- **C10.** Every chunk holding two or more files has content length at most
the chunk ceiling `maxChunkSize = MAX_CHUNK_TOKENS * CHARS_PER_TOKEN = 16000`;
equivalently, a chunk whose content exceeds the ceiling holds exactly one
file. -/
theorem c10_multi_file_chunk_bounded (files : List FileObject)
    (c : ContentChunk) (hc : c ∈ chunkContent files) (h2 : 2 ≤ c.fileCount) :
    c.content.length ≤ maxChunkSize := by
  rw [chunkContent_groups] at hc
  obtain ⟨g, hg, rfl⟩ := List.mem_map.mp hc
  exact finalGroups_size files g hg h2

/-- Closed instantiation of `c10_multi_file_chunk_bounded` at a two-file
input that lands in one chunk. -/
theorem c10_multi_file_chunk_bounded_witness :
    (mkChunk [wf1, wf2]).content.length ≤ maxChunkSize :=
  c10_multi_file_chunk_bounded [wf1, wf2] (mkChunk [wf1, wf2]) (by decide) (by decide)

/-! ## C9: entry-point candidates are ordered by ascending path depth -/

/-- **C9.** The entry-point tier's candidate list is sorted by ascending path
depth (shallower first), and in particular on an input containing
`src/app/index.js` before `index.js`, both fitting under the aggregate cap and
untouched by earlier tiers, the root-level `index.js` appears strictly before
`src/app/index.js` in the output of `selectKeyFiles`. -/
theorem c9_entry_depth_order :
    (∀ files : List FileObject, List.Sorted entryLe (entryPointsList files)) ∧
    (∀ (c1 c2 : List Char) (s1 s2 : Nat) (t1 t2 : FType),
      s1 + s2 ≤ MAX_TOTAL_CONTENT →
      selectKeyFiles [⟨"src/app/index.js", c2, s2, t2⟩, ⟨"index.js", c1, s1, t1⟩] =
        [⟨"index.js", c1, s1, t1⟩, ⟨"src/app/index.js", c2, s2, t2⟩]) := by
  refine ⟨fun files => List.sorted_insertionSort entryLe _, ?_⟩
  intro c1 c2 s1 s2 t1 t2 h
  have h' : s1 + s2 ≤ 51200 := h
  have e1 : addFile ⟨"index.js", c1, s1, t1⟩ (SelState.mk [] 0) =
      (true, SelState.mk [⟨"index.js", c1, s1, t1⟩] (0 + s1)) := by
    rw [addFile_small ⟨"index.js", c1, s1, t1⟩ (SelState.mk [] 0)
      (by show ¬ (102400:Nat) < s1; omega) (by show ¬ (51200:Nat) < 0 + s1; omega)]
    rfl
  have e2 : addFile ⟨"src/app/index.js", c2, s2, t2⟩
      (SelState.mk [⟨"index.js", c1, s1, t1⟩] (0 + s1)) =
      (true, SelState.mk [⟨"index.js", c1, s1, t1⟩, ⟨"src/app/index.js", c2, s2, t2⟩]
        (0 + s1 + s2)) := by
    rw [addFile_small ⟨"src/app/index.js", c2, s2, t2⟩
      (SelState.mk [⟨"index.js", c1, s1, t1⟩] (0 + s1))
      (by show ¬ (102400:Nat) < s2; omega) (by show ¬ (51200:Nat) < 0 + s1 + s2; omega)]
    rfl
  have hp1 : runAdd (priority1List [⟨"src/app/index.js", c2, s2, t2⟩,
      ⟨"index.js", c1, s1, t1⟩]) (SelState.mk [] 0) = SelState.mk [] 0 := by
    rw [show priority1List [(⟨"src/app/index.js", c2, s2, t2⟩ : FileObject),
      ⟨"index.js", c1, s1, t1⟩] = [] from rfl]
    rfl
  have hp2 : runAdd (priority2List [⟨"src/app/index.js", c2, s2, t2⟩,
      ⟨"index.js", c1, s1, t1⟩]) (SelState.mk [] 0) = SelState.mk [] 0 := by
    rw [show priority2List [(⟨"src/app/index.js", c2, s2, t2⟩ : FileObject),
      ⟨"index.js", c1, s1, t1⟩] = [] from rfl]
    rfl
  have hp3 : runAdd (entryPointsList [⟨"src/app/index.js", c2, s2, t2⟩,
      ⟨"index.js", c1, s1, t1⟩]) (SelState.mk [] 0) =
      SelState.mk [⟨"index.js", c1, s1, t1⟩, ⟨"src/app/index.js", c2, s2, t2⟩]
        (0 + s1 + s2) := by
    rw [show entryPointsList [(⟨"src/app/index.js", c2, s2, t2⟩ : FileObject),
      ⟨"index.js", c1, s1, t1⟩] = [⟨"index.js", c1, s1, t1⟩,
      ⟨"src/app/index.js", c2, s2, t2⟩] from rfl]
    rw [runAdd_step _ e1, runAdd_step _ e2]
    rfl
  have hp4 : runPass4 (sourceFilesList [⟨"src/app/index.js", c2, s2, t2⟩,
      ⟨"index.js", c1, s1, t1⟩]) 0
      (SelState.mk [⟨"index.js", c1, s1, t1⟩, ⟨"src/app/index.js", c2, s2, t2⟩]
        (0 + s1 + s2)) =
      SelState.mk [⟨"index.js", c1, s1, t1⟩, ⟨"src/app/index.js", c2, s2, t2⟩]
        (0 + s1 + s2) := by
    rw [show sourceFilesList [(⟨"src/app/index.js", c2, s2, t2⟩ : FileObject),
      ⟨"index.js", c1, s1, t1⟩] = [⟨"src/app/index.js", c2, s2, t2⟩] from rfl]
    rw [runPass4_cons, if_neg (by decide)]
    rw [if_pos (show pathSelected (SelState.mk [(⟨"index.js", c1, s1, t1⟩ : FileObject),
      ⟨"src/app/index.js", c2, s2, t2⟩] (0 + s1 + s2)).selected
      (⟨"src/app/index.js", c2, s2, t2⟩ : FileObject).path = true from rfl)]
    rfl
  have hsel := selectState_steps _ _ _ _ _ hp1 hp2 hp3 hp4
  rw [if_pos (show (SelState.mk [(⟨"index.js", c1, s1, t1⟩ : FileObject),
      ⟨"src/app/index.js", c2, s2, t2⟩] (0 + s1 + s2)).selected.length < 5
    by show (2:Nat) < 5; decide)] at hsel
  rw [show rootFilesList [(⟨"src/app/index.js", c2, s2, t2⟩ : FileObject),
      ⟨"index.js", c1, s1, t1⟩]
      (SelState.mk [⟨"index.js", c1, s1, t1⟩, ⟨"src/app/index.js", c2, s2, t2⟩]
        (0 + s1 + s2)).selected = [] from rfl] at hsel
  rw [show runAdd []
      (SelState.mk [⟨"index.js", c1, s1, t1⟩, ⟨"src/app/index.js", c2, s2, t2⟩]
        (0 + s1 + s2)) =
      SelState.mk [⟨"index.js", c1, s1, t1⟩, ⟨"src/app/index.js", c2, s2, t2⟩]
        (0 + s1 + s2) from rfl] at hsel
  exact (selectKeyFiles_def _).trans
    ((congrArg SelState.selected hsel).trans rfl)

/-- Closed instantiation of `c9_entry_depth_order` at one-byte contents. -/
theorem c9_entry_depth_order_witness :
    selectKeyFiles [⟨"src/app/index.js", ['y'], 2, .file⟩, ⟨"index.js", ['x'], 1, .file⟩] =
      [⟨"index.js", ['x'], 1, .file⟩, ⟨"src/app/index.js", ['y'], 2, .file⟩] :=
  c9_entry_depth_order.2 ['x'] ['y'] 1 2 .file .file (by decide)

/-! ## C7: cross-pass deduplication by path -/

theorem outFile_path (f : FileObject) : (outFile f).path = f.path := by
  unfold outFile; split <;> rfl

theorem pathSelected_eq_true {sel : List FileObject} {p : String} :
    pathSelected sel p = true ↔ ∃ x ∈ sel, x.path = p := by
  simp [pathSelected]

theorem pathSelected_eq_false {sel : List FileObject} {p : String} :
    pathSelected sel p = false ↔ ∀ x ∈ sel, x.path ≠ p := by
  rw [← Bool.not_eq_true, pathSelected_eq_true]
  simp

theorem addFile_true_selected {f : FileObject} {s : SelState}
    (h : (addFile f s).1 = true) :
    (addFile f s).2.selected = s.selected ++ [outFile f] := by
  by_cases h1 : MAX_FILE_SIZE < f.size
  · rw [addFile_oversized f s h1]; simp [outFile, h1]
  · by_cases h2 : MAX_TOTAL_CONTENT < s.totalSize + f.size
    · rw [addFile_reject f s h1 h2] at h; simp at h
    · rw [addFile_small f s h1 h2]; simp [outFile, h1]

theorem runAdd_selected (l : List FileObject) (s : SelState) :
    ∃ l', l' <+: l ∧ (runAdd l s).selected = s.selected ++ l'.map outFile := by
  induction l generalizing s with
  | nil => exact ⟨[], List.prefix_rfl, by simp [runAdd]⟩
  | cons f fs ih =>
    rw [runAdd_cons]
    by_cases hb : (addFile f s).1 = true
    · rw [if_pos hb]
      obtain ⟨l', hpre, hsel⟩ := ih (addFile f s).2
      refine ⟨f :: l', List.cons_prefix_cons.mpr ⟨rfl, hpre⟩, ?_⟩
      rw [hsel, addFile_true_selected hb]
      simp
    · rw [if_neg hb]
      rcases addFile_cases f s with h' | h'
      · exact ⟨[f], ⟨fs, rfl⟩, by rw [h']; simp⟩
      · exact ⟨[], ⟨f :: fs, rfl⟩, by rw [h']; simp⟩

theorem runAdd_selected_sub (l : List FileObject) (s : SelState) :
    ∀ x ∈ (runAdd l s).selected, x ∈ s.selected ∨ ∃ g ∈ l, x = outFile g := by
  obtain ⟨l', hpre, hsel⟩ := runAdd_selected l s
  rw [hsel]
  intro x hx
  rcases List.mem_append.mp hx with h | h
  · exact Or.inl h
  · obtain ⟨g, hg, rfl⟩ := List.mem_map.mp h
    exact Or.inr ⟨g, hpre.sublist.mem hg, rfl⟩

theorem pathsOf_append (a b : List FileObject) :
    pathsOf (a ++ b) = pathsOf a ++ pathsOf b := by
  simp [pathsOf]

theorem pathsOf_map_outFile (l : List FileObject) :
    pathsOf (l.map outFile) = pathsOf l := by
  simp only [pathsOf, List.map_map]
  exact List.map_congr_left fun f _ => outFile_path f

theorem runAdd_nodup (l : List FileObject) (s : SelState)
    (hl : (pathsOf l).Nodup) (hd : ∀ f ∈ l, f.path ∉ pathsOf s.selected)
    (hs : (pathsOf s.selected).Nodup) :
    (pathsOf (runAdd l s).selected).Nodup := by
  obtain ⟨l', hpre, hsel⟩ := runAdd_selected l s
  rw [hsel, pathsOf_append, List.nodup_append]
  refine ⟨hs, ?_, ?_⟩
  · rw [pathsOf_map_outFile]
    exact hl.sublist (List.Sublist.map _ hpre.sublist)
  · intro p hp hp'
    rw [pathsOf_map_outFile] at hp'
    obtain ⟨g, hg, rfl⟩ := List.mem_map.mp hp'
    exact hd g (hpre.sublist.mem hg) hp

theorem nodup_append_one {sel : List FileObject} {g : FileObject}
    (hs : (pathsOf sel).Nodup) (hg : g.path ∉ pathsOf sel) :
    (pathsOf (sel ++ [g])).Nodup := by
  rw [pathsOf_append, List.nodup_append]
  refine ⟨hs, by simp [pathsOf], ?_⟩
  intro p hp hp'
  simp only [pathsOf, List.map_cons, List.map_nil, List.mem_singleton] at hp'
  subst hp'
  exact hg hp

theorem not_pathSelected_not_mem {sel : List FileObject} {p : String}
    (h : pathSelected sel p = false) : p ∉ pathsOf sel := by
  intro hp
  obtain ⟨x, hx, hxp⟩ := by simpa [pathsOf] using hp
  exact (pathSelected_eq_false.mp h x hx) hxp

theorem runPass4_nodup (l : List FileObject) (n : Nat) (s : SelState)
    (hs : (pathsOf s.selected).Nodup) :
    (pathsOf (runPass4 l n s).selected).Nodup := by
  induction l generalizing n s with
  | nil => exact hs
  | cons f fs ih =>
    rw [runPass4_cons]
    by_cases h20 : 20 ≤ n
    · rw [if_pos h20]; exact hs
    · rw [if_neg h20]
      by_cases hsel : pathSelected s.selected f.path
      · rw [if_pos hsel]; exact ih _ _ hs
      · rw [if_neg hsel]
        have hnew : f.path ∉ pathsOf s.selected :=
          not_pathSelected_not_mem (Bool.eq_false_iff.mpr hsel)
        have hnew' : (outFile f).path ∉ pathsOf s.selected := by
          rw [outFile_path]; exact hnew
        by_cases hb : (addFile f s).1 = true
        · rw [if_pos hb]
          refine ih _ _ ?_
          rw [addFile_true_selected hb]
          exact nodup_append_one hs hnew'
        · rw [if_neg hb]
          rcases addFile_cases f s with h' | h'
          · rw [h']
            exact nodup_append_one hs hnew'
          · rw [h']; exact hs

theorem runPass4_selected_sub (l : List FileObject) (n : Nat) (s : SelState) :
    ∀ x ∈ (runPass4 l n s).selected, x ∈ s.selected ∨ ∃ g ∈ l, x = outFile g := by
  induction l generalizing n s with
  | nil => exact fun x hx => Or.inl hx
  | cons f fs ih =>
    rw [runPass4_cons]
    by_cases h20 : 20 ≤ n
    · rw [if_pos h20]; exact fun x hx => Or.inl hx
    · rw [if_neg h20]
      by_cases hsel : pathSelected s.selected f.path
      · rw [if_pos hsel]
        intro x hx
        rcases ih _ _ x hx with h | ⟨g, hg, rfl⟩
        · exact Or.inl h
        · exact Or.inr ⟨g, List.mem_cons_of_mem _ hg, rfl⟩
      · rw [if_neg hsel]
        have hone : ∀ x ∈ s.selected ++ [outFile f],
            x ∈ s.selected ∨ ∃ g ∈ f :: fs, x = outFile g := by
          intro x hx
          rcases List.mem_append.mp hx with h | h
          · exact Or.inl h
          · exact Or.inr ⟨f, List.mem_cons_self _ _, List.mem_singleton.mp h⟩
        by_cases hb : (addFile f s).1 = true
        · rw [if_pos hb]
          intro x hx
          rcases ih _ _ x hx with h | ⟨g, hg, rfl⟩
          · rw [addFile_true_selected hb] at h
            exact hone x h
          · exact Or.inr ⟨g, List.mem_cons_of_mem _ hg, rfl⟩
        · rw [if_neg hb]
          rcases addFile_cases f s with h' | h'
          · rw [h']; exact hone
          · rw [h']; exact fun x hx => Or.inl hx

theorem isPriority1_mem {f : FileObject} (h : isPriority1 f = true) :
    baseNameOf f.path ∈ PRIORITY_1_FILES := by
  simpa [isPriority1] using h

theorem isPriority2_mem {f : FileObject} (h : isPriority2 f = true) :
    baseNameOf f.path ∈ PRIORITY_2_PATTERNS := by
  simpa [isPriority2] using h

theorem isEntryPoint_mem {f : FileObject} (h : isEntryPoint f = true) :
    baseNameOf f.path ∈ ENTRY_POINT_PATTERNS := by
  simpa [isEntryPoint] using h

theorem p1_p2_disjoint : ∀ b ∈ PRIORITY_1_FILES, b ∉ PRIORITY_2_PATTERNS := by decide

theorem p1_entry_disjoint : ∀ b ∈ PRIORITY_1_FILES, b ∉ ENTRY_POINT_PATTERNS := by decide

theorem p2_entry_disjoint : ∀ b ∈ PRIORITY_2_PATTERNS, b ∉ ENTRY_POINT_PATTERNS := by decide

theorem pathsOf_filter_nodup (p : FileObject → Bool) {files : List FileObject}
    (h : (pathsOf files).Nodup) : (pathsOf (files.filter p)).Nodup :=
  h.sublist (List.Sublist.map _ (List.filter_sublist files))

theorem pathsOf_sort_nodup (r : FileObject → FileObject → Prop) [DecidableRel r]
    {l : List FileObject} (h : (pathsOf l).Nodup) :
    (pathsOf (List.insertionSort r l)).Nodup :=
  (((List.perm_insertionSort r l).map FileObject.path).nodup_iff).mpr h

theorem mem_rootFilesList {files sel : List FileObject} {f : FileObject}
    (hf : f ∈ rootFilesList files sel) :
    pathSelected sel f.path = false ∧ f ∈ files := by
  unfold rootFilesList at hf
  have hf1 := List.mem_of_mem_take hf
  have hf2 := (List.mem_insertionSort rootLe).mp hf1
  have hf3 := List.mem_filter.mp hf2
  have hf4 := List.mem_filter.mp hf3.1
  refine ⟨?_, hf4.1⟩
  have hb := hf4.2
  simp only [Bool.not_eq_true'] at hb
  exact hb

/-- **C7.** If the input paths are pairwise distinct, so are the output paths
of `selectKeyFiles`: passes 1–3 draw from name-disjoint candidate sets, and
pass 4 and the fallback pass skip (by path) files already selected, so no
file is ever appended twice. -/
theorem c7_no_duplicate_paths (files : List FileObject) (h : (pathsOf files).Nodup) :
    (pathsOf (selectKeyFiles files)).Nodup := by
  have inj : ∀ a ∈ files, ∀ b ∈ files, a.path = b.path → a = b :=
    List.inj_on_of_nodup_map h
  have hs1 : (pathsOf (runAdd (priority1List files) (SelState.mk [] 0)).selected).Nodup :=
    runAdd_nodup _ _ (pathsOf_filter_nodup _ h)
      (by intro f _ hp; simp [pathsOf] at hp) (by simp [pathsOf])
  have prov1 : ∀ x ∈ (runAdd (priority1List files) (SelState.mk [] 0)).selected,
      ∃ g ∈ files, isPriority1 g = true ∧ x.path = g.path := by
    intro x hx
    rcases runAdd_selected_sub _ _ x hx with hx0 | ⟨g, hg, rfl⟩
    · simp at hx0
    · have hm := List.mem_filter.mp hg
      exact ⟨g, hm.1, hm.2, outFile_path g⟩
  have hd2 : ∀ f ∈ priority2List files,
      f.path ∉ pathsOf (runAdd (priority1List files) (SelState.mk [] 0)).selected := by
    intro f hf hp
    obtain ⟨x, hx, hxp⟩ := by simpa [pathsOf] using hp
    obtain ⟨g, hgf, hg1, hgp⟩ := prov1 x hx
    have hff := List.mem_filter.mp hf
    have hgeq : g = f := inj g hgf f hff.1 (hgp.symm.trans hxp)
    subst hgeq
    exact p1_p2_disjoint _ (isPriority1_mem hg1) (isPriority2_mem hff.2)
  have hs2 : (pathsOf (runAdd (priority2List files)
      (runAdd (priority1List files) (SelState.mk [] 0))).selected).Nodup :=
    runAdd_nodup _ _ (pathsOf_filter_nodup _ h) hd2 hs1
  have prov2 : ∀ x ∈ (runAdd (priority2List files)
      (runAdd (priority1List files) (SelState.mk [] 0))).selected,
      ∃ g ∈ files, (isPriority1 g = true ∨ isPriority2 g = true) ∧ x.path = g.path := by
    intro x hx
    rcases runAdd_selected_sub _ _ x hx with hx0 | ⟨g, hg, rfl⟩
    · obtain ⟨g, hgf, hg1, hgp⟩ := prov1 x hx0
      exact ⟨g, hgf, Or.inl hg1, hgp⟩
    · have hm := List.mem_filter.mp hg
      exact ⟨g, hm.1, Or.inr hm.2, outFile_path g⟩
  have hd3 : ∀ f ∈ entryPointsList files,
      f.path ∉ pathsOf (runAdd (priority2List files)
        (runAdd (priority1List files) (SelState.mk [] 0))).selected := by
    intro f hf hp
    obtain ⟨x, hx, hxp⟩ := by simpa [pathsOf] using hp
    obtain ⟨g, hgf, hg12, hgp⟩ := prov2 x hx
    have hfm : f ∈ files.filter isEntryPoint :=
      (List.mem_insertionSort entryLe).mp hf
    have hff := List.mem_filter.mp hfm
    have hgeq : g = f := inj g hgf f hff.1 (hgp.symm.trans hxp)
    subst hgeq
    rcases hg12 with h1 | h2
    · exact p1_entry_disjoint _ (isPriority1_mem h1) (isEntryPoint_mem hff.2)
    · exact p2_entry_disjoint _ (isPriority2_mem h2) (isEntryPoint_mem hff.2)
  have hl3 : (pathsOf (entryPointsList files)).Nodup :=
    pathsOf_sort_nodup entryLe (pathsOf_filter_nodup _ h)
  have hs3 : (pathsOf (runAdd (entryPointsList files) (runAdd (priority2List files)
      (runAdd (priority1List files) (SelState.mk [] 0)))).selected).Nodup :=
    runAdd_nodup _ _ hl3 hd3 hs2
  have hs4 : (pathsOf (runPass4 (sourceFilesList files) 0
      (runAdd (entryPointsList files) (runAdd (priority2List files)
        (runAdd (priority1List files) (SelState.mk [] 0))))).selected).Nodup :=
    runPass4_nodup _ _ _ hs3
  rw [selectKeyFiles_def, selectState_steps files _ _ _ _ rfl rfl rfl rfl]
  split
  · refine runAdd_nodup _ _ ?_ ?_ hs4
    · exact (pathsOf_sort_nodup rootLe (pathsOf_filter_nodup _
        (pathsOf_filter_nodup _ h))).sublist
        (List.Sublist.map _ (List.take_sublist _ _))
    · intro f hf
      exact not_pathSelected_not_mem (mem_rootFilesList hf).1
  · exact hs4

/-- Closed instantiation of `c7_no_duplicate_paths` at `c1demo`. -/
theorem c7_no_duplicate_paths_witness : (pathsOf (selectKeyFiles c1demo)).Nodup :=
  c7_no_duplicate_paths c1demo (by decide)

end RepoSense
open RepoSense

theorem outFile_small {f : FileObject} (h : ¬ MAX_FILE_SIZE < f.size) : outFile f = f := by
  unfold outFile; rw [if_neg h]

theorem outFile_isPriority1 (f : FileObject) : isPriority1 (outFile f) = isPriority1 f := by
  unfold isPriority1; rw [outFile_path]

theorem outFile_isPriority2 (f : FileObject) : isPriority2 (outFile f) = isPriority2 f := by
  unfold isPriority2; rw [outFile_path]

theorem outFile_isEntryPoint (f : FileObject) : isEntryPoint (outFile f) = isEntryPoint f := by
  unfold isEntryPoint; rw [outFile_path]

theorem outFile_matchesDir (f : FileObject) (d : String) :
    matchesDir (outFile f) d = matchesDir f d := by
  unfold matchesDir; rw [outFile_path]

theorem outFile_hasPriorityDir (f : FileObject) :
    hasPriorityDir (outFile f) = hasPriorityDir f := by
  unfold hasPriorityDir
  congr 1
  funext d
  exact outFile_matchesDir f d

theorem outFile_dirIndexOf (f : FileObject) : dirIndexOf (outFile f) = dirIndexOf f := by
  unfold dirIndexOf
  congr 1
  funext d
  exact outFile_matchesDir f d

theorem outFile_depthOf (f : FileObject) : depthOf (outFile f).path = depthOf f.path := by
  rw [outFile_path]

theorem outFile_entryLe (a b : FileObject) : entryLe (outFile a) (outFile b) ↔ entryLe a b := by
  unfold entryLe; rw [outFile_path, outFile_path]

theorem outFile_sourceLe (a b : FileObject) : sourceLe (outFile a) (outFile b) ↔ sourceLe a b := by
  unfold sourceLe; rw [outFile_dirIndexOf, outFile_dirIndexOf, outFile_path, outFile_path]

theorem outFile_rootLe (a b : FileObject) : rootLe (outFile a) (outFile b) ↔ rootLe a b := by
  unfold rootLe; rw [outFile_path, outFile_path]

theorem pathSelected_append (a b : List FileObject) (p : String) :
    pathSelected (a ++ b) p = (pathSelected a p || pathSelected b p) := by
  simp [pathSelected]

theorem sumSizes_app (a b : List FileObject) : sumSizes (a ++ b) = sumSizes a + sumSizes b := by
  simp [sumSizes]

theorem sumSizes_cons (f : FileObject) (l : List FileObject) :
    sumSizes (f :: l) = f.size + sumSizes l := by
  simp [sumSizes]

theorem size_le_sumSizes {x : FileObject} {l : List FileObject} (h : x ∈ l) :
    x.size ≤ sumSizes l := by
  induction l with
  | nil => cases h
  | cons f fs ih =>
    rw [sumSizes_cons]
    rcases List.mem_cons.mp h with h | h
    · subst h; omega
    · have := ih h; omega

/-- When every candidate is small and the whole list fits in the remaining
budget, `runAdd` appends everything. -/
theorem runAdd_all (l : List FileObject) (s : SelState)
    (hsize : ∀ x ∈ l, ¬ MAX_FILE_SIZE < x.size)
    (hbudget : s.totalSize + sumSizes l ≤ MAX_TOTAL_CONTENT) :
    runAdd l s = ⟨s.selected ++ l, s.totalSize + sumSizes l⟩ := by
  induction l generalizing s with
  | nil => simp [runAdd, sumSizes]
  | cons f fs ih =>
    rw [sumSizes_cons] at hbudget
    have hsf := hsize f (List.mem_cons_self _ _)
    have hb : ¬ MAX_TOTAL_CONTENT < s.totalSize + f.size := by omega
    rw [runAdd_cons, addFile_small f s hsf hb]
    simp only [if_pos]
    rw [ih _ (fun x hx => hsize x (List.mem_cons_of_mem _ hx)) (by simp; omega)]
    simp [sumSizes_cons]
    omega
open RepoSense

theorem addFile_true_spec (f : FileObject) (s : SelState) (h : (addFile f s).1 = true) :
    (addFile f s).2 = ⟨s.selected ++ [outFile f], s.totalSize + (outFile f).size⟩ ∧
    (outFile f).size ≤ MAX_TOTAL_CONTENT ∧
    s.totalSize + (outFile f).size ≤ MAX_TOTAL_CONTENT := by
  by_cases h1 : MAX_FILE_SIZE < f.size
  · rw [addFile_oversized f s h1] at h ⊢
    simp only [decide_eq_true_eq] at h
    rw [show outFile f = truncFile f from if_pos h1]
    exact ⟨rfl, by omega, by omega⟩
  · by_cases h2 : MAX_TOTAL_CONTENT < s.totalSize + f.size
    · rw [addFile_reject f s h1 h2] at h; cases h
    · rw [addFile_small f s h1 h2] at h ⊢
      rw [show outFile f = f from if_neg h1]
      exact ⟨rfl, by omega, by omega⟩

theorem runAddI_cons (f : FileObject) (fs : List FileObject) (s : SelState) :
    runAddI (f :: fs) s =
      if (addFile f s).1 then runAddI fs (addFile f s).2 else ((addFile f s).2, false) := rfl

theorem runPass4I_cons (f : FileObject) (fs : List FileObject) (n : Nat) (s : SelState) :
    runPass4I (f :: fs) n s =
      if 20 ≤ n then (s, true)
      else if pathSelected s.selected f.path then runPass4I fs n s
      else if (addFile f s).1 then runPass4I fs (n + 1) (addFile f s).2
      else ((addFile f s).2, false) := rfl

/-- A successful (never-rejecting) plain pass appends the truncation image of
every candidate, keeps the per-file and aggregate bounds, and adds the sizes. -/
theorem runAddI_true (l : List FileObject) (s : SelState)
    (hflag : (runAddI l s).2 = true) (hs : s.totalSize ≤ MAX_TOTAL_CONTENT) :
    (runAddI l s).1.selected = s.selected ++ l.map outFile ∧
    (runAddI l s).1.totalSize = s.totalSize + sumSizes (l.map outFile) ∧
    (∀ g ∈ l.map outFile, g.size ≤ MAX_TOTAL_CONTENT) ∧
    (runAddI l s).1.totalSize ≤ MAX_TOTAL_CONTENT := by
  induction l generalizing s with
  | nil => simpa [runAddI, sumSizes] using hs
  | cons f fs ih =>
    rw [runAddI_cons] at hflag ⊢
    by_cases hr : (addFile f s).1 = true
    · rw [if_pos hr] at hflag ⊢
      obtain ⟨hstate, hsize, htot⟩ := addFile_true_spec f s hr
      rw [hstate] at hflag ⊢
      obtain ⟨ih1, ih2, ih3, ih4⟩ := ih _ hflag (by simpa using htot)
      refine ⟨?_, ?_, ?_, ih4⟩
      · rw [ih1]; simp
      · rw [ih2]; simp [sumSizes_cons]; omega
      · intro g hg
        rcases List.mem_cons.mp hg with hg | hg
        · subst hg; exact hsize
        · exact ih3 g hg
    · rw [if_neg hr] at hflag; cases hflag

theorem lexLe_total : ∀ a b : List Char, lexLe a b = true ∨ lexLe b a = true
  | [], _ => Or.inl rfl
  | _ :: _, [] => Or.inr rfl
  | a :: as, b :: bs => by
    unfold lexLe
    by_cases h1 : a < b
    · left; rw [if_pos h1]
    · by_cases h2 : b < a
      · right; rw [if_pos h2]
      · rw [if_neg h1, if_neg h2, if_neg h2, if_neg h1]
        exact lexLe_total as bs

theorem lexLe_trans : ∀ a b c : List Char,
    lexLe a b = true → lexLe b c = true → lexLe a c = true
  | [], _, _, _, _ => rfl
  | _ :: _, [], _, h, _ => by cases h
  | _ :: _, _ :: _, [], _, h => by cases h
  | a :: as, b :: bs, c :: cs, hab, hbc => by
    unfold lexLe at *
    by_cases h1 : a < b
    · by_cases h2 : b < c
      · rw [if_pos (lt_trans h1 h2)]
      · rw [if_neg h2] at hbc
        by_cases h2' : c < b
        · rw [if_pos h2'] at hbc; cases hbc
        · have hb : b = c := le_antisymm (not_lt.mp h2') (not_lt.mp h2)
          subst hb
          rw [if_pos h1]
    · rw [if_neg h1] at hab
      by_cases h1' : b < a
      · rw [if_pos h1'] at hab; cases hab
      · rw [if_neg h1'] at hab
        have hba : a = b := le_antisymm (not_lt.mp h1') (not_lt.mp h1)
        subst hba
        by_cases h2 : a < c
        · rw [if_pos h2]
        · rw [if_neg h2] at hbc ⊢
          by_cases h2' : c < a
          · rw [if_pos h2'] at hbc; cases hbc
          · rw [if_neg h2'] at hbc ⊢
            exact lexLe_trans as bs cs hab hbc

instance : IsTotal FileObject rootLe := ⟨fun a b => lexLe_total a.path.data b.path.data⟩

instance : IsTrans FileObject rootLe :=
  ⟨fun a b c hab hbc => lexLe_trans a.path.data b.path.data c.path.data hab hbc⟩
open RepoSense

/-- A successful pass-4 run appends the truncation image of some sublist of the
candidate list: each appended candidate was not previously selected (by path),
the appended paths are distinct, at most `20 - n` files are appended, and the
per-file / aggregate bounds hold. -/
theorem runPass4I_true (l : List FileObject) (n : Nat) (s : SelState)
    (hflag : (runPass4I l n s).2 = true) (hs : s.totalSize ≤ MAX_TOTAL_CONTENT) :
    ∃ l', List.Sublist l' l ∧
      (runPass4I l n s).1.selected = s.selected ++ l'.map outFile ∧
      (runPass4I l n s).1.totalSize = s.totalSize + sumSizes (l'.map outFile) ∧
      (∀ g ∈ l'.map outFile, g.size ≤ MAX_TOTAL_CONTENT) ∧
      (n + l'.length ≤ 20 ∨ l' = []) ∧
      (∀ f ∈ l', pathSelected s.selected f.path = false) ∧
      (pathsOf (l'.map outFile)).Nodup ∧
      (runPass4I l n s).1.totalSize ≤ MAX_TOTAL_CONTENT := by
  induction l generalizing n s with
  | nil =>
    exact ⟨[], List.Sublist.refl _, by simp [runPass4I, sumSizes, pathsOf, hs]⟩
  | cons f fs ih =>
    rw [runPass4I_cons] at hflag ⊢
    by_cases hn : 20 ≤ n
    · rw [if_pos hn] at hflag ⊢
      exact ⟨[], List.sublist_cons_of_sublist _ (List.nil_sublist _),
        by simp [sumSizes, pathsOf, hs]⟩
    · rw [if_neg hn] at hflag ⊢
      by_cases hp : pathSelected s.selected f.path = true
      · rw [if_pos hp] at hflag ⊢
        obtain ⟨l', hsub, h1, h2, h3, h4, h5, h6, h7⟩ := ih n s hflag hs
        exact ⟨l', List.sublist_cons_of_sublist _ hsub, h1, h2, h3, h4, h5, h6, h7⟩
      · rw [if_neg hp] at hflag ⊢
        by_cases hr : (addFile f s).1 = true
        · rw [if_pos hr] at hflag ⊢
          obtain ⟨hstate, hsize, htot⟩ := addFile_true_spec f s hr
          rw [hstate] at hflag ⊢
          obtain ⟨l', hsub, h1, h2, h3, h4, h5, h6, h7⟩ :=
            ih (n + 1) _ hflag (by simpa using htot)
          refine ⟨f :: l', List.Sublist.cons₂ _ hsub, ?_, ?_, ?_, ?_, ?_, ?_, h7⟩
          · rw [h1]; simp
          · rw [h2]; simp [sumSizes_cons]; omega
          · intro g hg
            rcases List.mem_cons.mp hg with hg | hg
            · subst hg; exact hsize
            · exact h3 g hg
          · left
            rcases h4 with h4 | h4
            · simp only [List.length_cons]; omega
            · subst h4; simp only [List.length_cons, List.length_nil]; omega
          · intro g hg
            rcases List.mem_cons.mp hg with hg | hg
            · subst hg; exact Bool.eq_false_iff.mpr (fun hc => hp hc)
            · have := h5 g hg
              simp only [pathSelected_append] at this
              exact (Bool.or_eq_false_iff.mp this).1
          · rw [List.map_cons]
            unfold pathsOf
            rw [List.map_cons]
            refine List.Pairwise.cons ?_ h6
            intro q hq
            simp only [List.mem_map] at hq
            obtain ⟨g, hg, rfl⟩ := hq
            obtain ⟨g', hg', rfl⟩ := hg
            simp only [outFile_path]
            intro hcontr
            have h5' := h5 g' hg'
            rw [pathSelected_append] at h5'
            have h2' := (Bool.or_eq_false_iff.mp h5').2
            simp only [pathSelected, List.any_eq_false] at h2'
            have hx := h2' (outFile f) (by simp)
            rw [outFile_path, hcontr] at hx
            simp at hx
        · rw [if_neg hr] at hflag; cases hflag
open RepoSense

/-- Pass 4 on a candidate list whose not-yet-selected part is exactly `new`:
when `new` has distinct paths, fits the remaining budget and count, and each
member is small, the pass appends `new` verbatim. -/
theorem runPass4_all_new (M : List FileObject) (n : Nat) (s : SelState)
    (new : List FileObject)
    (hfilter : M.filter (fun g => !pathSelected s.selected g.path) = new)
    (hnodup : (pathsOf new).Nodup)
    (hsize : ∀ g ∈ new, ¬ MAX_FILE_SIZE < g.size)
    (hbudget : s.totalSize + sumSizes new ≤ MAX_TOTAL_CONTENT)
    (hcount : n + new.length ≤ 20) :
    runPass4 M n s = ⟨s.selected ++ new, s.totalSize + sumSizes new⟩ := by
  induction M generalizing n s new with
  | nil =>
    simp only [List.filter_nil] at hfilter
    subst hfilter
    simp [runPass4, sumSizes]
  | cons f fs ih =>
    rw [runPass4_cons]
    by_cases hn : 20 ≤ n
    · rw [if_pos hn]
      have hlen : new.length = 0 := by omega
      rw [List.length_eq_zero.mp hlen]
      simp [sumSizes]
    · rw [if_neg hn]
      by_cases hp : pathSelected s.selected f.path = true
      · rw [if_pos hp]
        rw [List.filter_cons_of_neg (by simp [hp])] at hfilter
        exact ih n s new hfilter hnodup hsize hbudget hcount
      · rw [if_neg hp]
        have hpf : pathSelected s.selected f.path = false := Bool.eq_false_iff.mpr hp
        rw [List.filter_cons_of_pos (by simp [hpf])] at hfilter
        obtain ⟨new', hns⟩ : ∃ new', new = f :: new' := ⟨_, hfilter.symm⟩
        subst hns
        have hnew' : fs.filter (fun g => !pathSelected s.selected g.path) = new' := by
          injection hfilter
        have hsf := hsize f (List.mem_cons_self _ _)
        have hsum := sumSizes_cons f new'
        have hb : ¬ MAX_TOTAL_CONTENT < s.totalSize + f.size := by omega
        rw [addFile_small f s hsf hb]
        simp only [if_pos]
        have hpaths : ∀ g ∈ new', f.path ≠ g.path := by
          intro g hg
          unfold pathsOf at hnodup
          rw [List.map_cons] at hnodup
          exact (List.pairwise_cons.mp hnodup).1 g.path (List.mem_map_of_mem _ hg)
        have hfilter' : fs.filter
            (fun g => !pathSelected (s.selected ++ [f]) g.path) = new' := by
          rw [← hnew']
          apply List.filter_congr
          intro g hgfs
          simp only [pathSelected_append]
          by_cases hgs : pathSelected s.selected g.path = true
          · simp [hgs]
          · have hgs' : pathSelected s.selected g.path = false := Bool.eq_false_iff.mpr hgs
            have hgnew : g ∈ new' := by
              rw [← hnew']
              exact List.mem_filter.mpr ⟨hgfs, by simp [hgs']⟩
            have hne := hpaths g hgnew
            simp only [hgs', Bool.false_or]
            simp [pathSelected, hne]
        have hres := ih (n + 1) ⟨s.selected ++ [f], s.totalSize + f.size⟩ new' hfilter'
          (by unfold pathsOf at hnodup ⊢; rw [List.map_cons] at hnodup;
              exact (List.pairwise_cons.mp hnodup).2)
          (fun g hg => hsize g (List.mem_cons_of_mem _ hg))
          (by dsimp only; omega)
          (by simp only [List.length_cons] at hcount; omega)
        rw [hres]
        simp only [List.append_assoc, List.singleton_append]
        rw [hsum]
        congr 1
        omega
open RepoSense

theorem runAddI_fst (l : List FileObject) (s : SelState) :
    (runAddI l s).1 = runAdd l s := by
  induction l generalizing s with
  | nil => rfl
  | cons f fs ih =>
    rw [runAddI_cons, runAdd_cons]
    by_cases hr : (addFile f s).1 = true
    · rw [if_pos hr, if_pos hr]; exact ih _
    · rw [if_neg hr, if_neg hr]

theorem runPass4I_fst (l : List FileObject) (n : Nat) (s : SelState) :
    (runPass4I l n s).1 = runPass4 l n s := by
  induction l generalizing n s with
  | nil => rfl
  | cons f fs ih =>
    rw [runPass4I_cons, runPass4_cons]
    by_cases hn : 20 ≤ n
    · rw [if_pos hn, if_pos hn]
    · rw [if_neg hn, if_neg hn]
      by_cases hp : pathSelected s.selected f.path = true
      · rw [if_pos hp, if_pos hp]; exact ih _ _
      · rw [if_neg hp, if_neg hp]
        by_cases hr : (addFile f s).1 = true
        · rw [if_pos hr, if_pos hr]; exact ih _ _
        · rw [if_neg hr, if_neg hr]

theorem selectStateI_fst (files : List FileObject) :
    (selectStateI files).1 = selectState files := by
  simp only [selectStateI, selectState]
  rw [runAddI_fst, runAddI_fst, runAddI_fst, runPass4I_fst]
  by_cases h : (runPass4 (sourceFilesList files) 0
      (runAdd (entryPointsList files)
        (runAdd (priority2List files)
          (runAdd (priority1List files) ⟨[], 0⟩)))).selected.length < 5
  · rw [if_pos h, if_pos h, runAddI_fst]
  · rw [if_neg h, if_neg h]
open RepoSense

theorem splitSegs_ne_nil : ∀ l : List Char, splitSegs l ≠ []
  | [] => by simp [splitSegs]
  | c :: cs => by
    unfold splitSegs
    cases h : splitSegs cs with
    | nil => simp
    | cons s ss => by_cases hc : c = '/' <;> simp [hc]

theorem splitSegs_length : ∀ l : List Char, (splitSegs l).length = l.count '/' + 1
  | [] => by simp [splitSegs]
  | c :: cs => by
    have ih := splitSegs_length cs
    have hne := splitSegs_ne_nil cs
    unfold splitSegs
    cases h : splitSegs cs with
    | nil => exact absurd h hne
    | cons s ss =>
      rw [h] at ih
      dsimp only
      rw [List.count_cons]
      by_cases hc : c = '/'
      · rw [if_pos hc]
        simp only [List.length_cons] at ih ⊢
        simp [hc]
        omega
      · rw [if_neg hc]
        simp only [List.length_cons] at ih ⊢
        simp [hc]
        omega

theorem startsWithSeg_count (c : Char) :
    ∀ pat l : List Char, startsWithSeg pat l = true → pat.count c ≤ l.count c
  | [], _, _ => by simp
  | _ :: _, [], h => by cases h
  | a :: as, b :: bs, h => by
    unfold startsWithSeg at h
    rw [Bool.and_eq_true] at h
    have hab : a = b := by simpa using h.1
    subst hab
    have ih := startsWithSeg_count c as bs h.2
    rw [List.count_cons, List.count_cons]
    omega

theorem containsSub_count (c : Char) :
    ∀ pat l : List Char, containsSub pat l = true → pat.count c ≤ l.count c
  | pat, [], h => by
    unfold containsSub at h
    rw [List.isEmpty_iff] at h
    subst h
    simp
  | pat, b :: bs, h => by
    unfold containsSub at h
    rw [Bool.or_eq_true] at h
    rcases h with h | h
    · exact startsWithSeg_count c pat (b :: bs) h
    · have ih := containsSub_count c pat bs h
      rw [List.count_cons]
      omega

theorem priority_dirs_slashes : ∀ d ∈ PRIORITY_DIRECTORIES, d.data.count '/' = 2 := by
  decide

/-- Any path matching a priority directory has at least three segments. -/
theorem hasDir_depth {f : FileObject} (h : hasPriorityDir f = true) :
    3 ≤ depthOf f.path := by
  unfold hasPriorityDir at h
  rw [List.any_eq_true] at h
  obtain ⟨d, hd, hmatch⟩ := h
  unfold matchesDir at hmatch
  have h2 : d.data.count '/' = 2 := priority_dirs_slashes d hd
  have hc := containsSub_count '/' d.data f.path.data hmatch
  unfold depthOf
  rw [splitSegs_length]
  omega

theorem mem_rootFilesList_depth {files sel : List FileObject} {f : FileObject}
    (hf : f ∈ rootFilesList files sel) : depthOf f.path ≤ 2 := by
  unfold rootFilesList at hf
  have hf1 := List.mem_of_mem_take hf
  have hf2 := (List.mem_insertionSort rootLe).mp hf1
  have hf3 := List.mem_filter.mp hf2
  simpa using hf3.2

theorem pathSelected_of_mem_map {l : List FileObject} {f : FileObject} (h : f ∈ l) :
    pathSelected (l.map outFile) f.path = true := by
  rw [pathSelected, List.any_eq_true]
  exact ⟨outFile f, List.mem_map_of_mem _ h, by simp [outFile_path]⟩

theorem filter_map_outFile_eq_self {p : FileObject → Bool}
    (hp : ∀ f, p (outFile f) = p f) {l : List FileObject} (h : ∀ f ∈ l, p f = true) :
    (l.map outFile).filter p = l.map outFile := by
  rw [List.filter_eq_self]
  intro g hg
  obtain ⟨f, hf, rfl⟩ := List.mem_map.mp hg
  rw [hp]
  exact h f hf

theorem filter_map_outFile_eq_nil {p : FileObject → Bool}
    (hp : ∀ f, p (outFile f) = p f) {l : List FileObject} (h : ∀ f ∈ l, p f = false) :
    (l.map outFile).filter p = [] := by
  rw [List.filter_eq_nil_iff]
  intro g hg
  obtain ⟨f, hf, rfl⟩ := List.mem_map.mp hg
  rw [hp, h f hf]
  simp
open RepoSense

theorem sumSizes_nil : sumSizes [] = 0 := rfl

/-- Structure of a never-rejecting run: the output is the concatenation of the
truncation images of the four candidate tiers (pass 4 contributing a sublist
`l'` of its candidates) plus the optional fallback block, with the aggregate
and per-file bounds, pass-4 dedup facts, and the fallback branching data. -/
theorem noRejection_decomp (files : List FileObject) (h : noRejection files) :
    ∃ l' A5 : List FileObject,
      List.Sublist l' (sourceFilesList files) ∧
      selectKeyFiles files =
        (priority1List files).map outFile ++ (priority2List files).map outFile ++
          (entryPointsList files).map outFile ++ l'.map outFile ++ A5 ∧
      sumSizes (selectKeyFiles files) = sumSizes ((priority1List files).map outFile) +
        sumSizes ((priority2List files).map outFile) +
        sumSizes ((entryPointsList files).map outFile) +
        sumSizes (l'.map outFile) + sumSizes A5 ∧
      sumSizes (selectKeyFiles files) ≤ MAX_TOTAL_CONTENT ∧
      (∀ g ∈ selectKeyFiles files, g.size ≤ MAX_TOTAL_CONTENT) ∧
      (∀ f ∈ l',
        pathSelected ((priority1List files).map outFile ++ (priority2List files).map outFile ++
          (entryPointsList files).map outFile) f.path = false) ∧
      (pathsOf (l'.map outFile)).Nodup ∧
      l'.length ≤ 20 ∧
      ((¬ ((priority1List files).map outFile ++ (priority2List files).map outFile ++
            (entryPointsList files).map outFile ++ l'.map outFile).length < 5 ∧ A5 = []) ∨
       (((priority1List files).map outFile ++ (priority2List files).map outFile ++
            (entryPointsList files).map outFile ++ l'.map outFile).length < 5 ∧
        A5 = (rootFilesList files
          ((priority1List files).map outFile ++ (priority2List files).map outFile ++
            (entryPointsList files).map outFile ++ l'.map outFile)).map outFile)) := by
  have hfst := selectStateI_fst files
  unfold noRejection at h
  simp only [selectStateI] at h hfst
  by_cases hb : (runPass4I (sourceFilesList files) 0
      (runAddI (entryPointsList files)
        (runAddI (priority2List files)
          (runAddI (priority1List files) (⟨[], 0⟩ : SelState)).1).1).1).1.selected.length < 5
  · rw [if_pos hb] at h hfst
    simp only [Bool.and_eq_true] at h
    obtain ⟨⟨⟨⟨h1, h2⟩, h3⟩, h4⟩, h5⟩ := h
    obtain ⟨e1, t1, z1, b1⟩ := runAddI_true (priority1List files) ⟨[], 0⟩ h1 (Nat.zero_le _)
    obtain ⟨e2, t2, z2, b2⟩ := runAddI_true (priority2List files) _ h2 b1
    obtain ⟨e3, t3, z3, b3⟩ := runAddI_true (entryPointsList files) _ h3 b2
    obtain ⟨l', hsub, e4, t4, z4, hcnt, hnsel, hnd, b4⟩ :=
      runPass4I_true (sourceFilesList files) 0 _ h4 b3
    obtain ⟨e5, t5, z5, b5⟩ := runAddI_true (rootFilesList files _) _ h5 b4
    dsimp only at e1 t1
    rw [e1, List.nil_append] at e2
    rw [t1, Nat.zero_add] at t2
    rw [e2] at e3
    rw [t2] at t3
    rw [e3] at e4 hnsel
    rw [t3] at t4
    rw [e4] at hb z5
    rw [t5] at b5
    rw [t4] at b5
    rw [e4] at b5
    refine ⟨l', _, hsub, ?_, ?_, ?_, ?_, hnsel, hnd, ?_, Or.inr ⟨hb, rfl⟩⟩
    · rw [selectKeyFiles_def, ← hfst, e5, e4]
    · rw [selectKeyFiles_def, ← hfst, e5, e4]
      simp only [sumSizes_app]
    · rw [selectKeyFiles_def, ← hfst, e5, e4]
      simp only [sumSizes_app] at b5 ⊢
      omega
    · rw [selectKeyFiles_def, ← hfst, e5, e4]
      intro g hg
      simp only [List.mem_append] at hg
      rcases hg with ((((hg | hg) | hg) | hg) | hg)
      · exact z1 g hg
      · exact z2 g hg
      · exact z3 g hg
      · exact z4 g hg
      · exact z5 g hg
    · rcases hcnt with hcnt | hcnt
      · omega
      · subst hcnt; simp
  · rw [if_neg hb] at h hfst
    simp only [Bool.and_eq_true] at h
    obtain ⟨⟨⟨h1, h2⟩, h3⟩, h4⟩ := h
    obtain ⟨e1, t1, z1, b1⟩ := runAddI_true (priority1List files) ⟨[], 0⟩ h1 (Nat.zero_le _)
    obtain ⟨e2, t2, z2, b2⟩ := runAddI_true (priority2List files) _ h2 b1
    obtain ⟨e3, t3, z3, b3⟩ := runAddI_true (entryPointsList files) _ h3 b2
    obtain ⟨l', hsub, e4, t4, z4, hcnt, hnsel, hnd, b4⟩ :=
      runPass4I_true (sourceFilesList files) 0 _ h4 b3
    dsimp only at e1 t1
    rw [e1, List.nil_append] at e2
    rw [t1, Nat.zero_add] at t2
    rw [e2] at e3
    rw [t2] at t3
    rw [e3] at e4 hnsel
    rw [t3] at t4
    rw [e4] at hb
    rw [t4] at b4
    refine ⟨l', [], hsub, ?_, ?_, ?_, ?_, hnsel, hnd, ?_, Or.inl ⟨hb, rfl⟩⟩
    · rw [selectKeyFiles_def, ← hfst, e4, List.append_nil]
    · rw [selectKeyFiles_def, ← hfst, e4]
      simp only [sumSizes_app, sumSizes_nil]
      omega
    · rw [selectKeyFiles_def, ← hfst, e4]
      simp only [sumSizes_app] at b4 ⊢
      omega
    · rw [selectKeyFiles_def, ← hfst, e4]
      intro g hg
      simp only [List.mem_append] at hg
      rcases hg with (((hg | hg) | hg) | hg)
      · exact z1 g hg
      · exact z2 g hg
      · exact z3 g hg
      · exact z4 g hg
    · rcases hcnt with hcnt | hcnt
      · omega
      · subst hcnt; simp
open RepoSense

theorem mem_priority1List {files : List FileObject} {f : FileObject} :
    f ∈ priority1List files ↔ f ∈ files ∧ isPriority1 f = true := by
  unfold priority1List
  exact List.mem_filter

theorem mem_priority2List {files : List FileObject} {f : FileObject} :
    f ∈ priority2List files ↔ f ∈ files ∧ isPriority2 f = true := by
  unfold priority2List
  exact List.mem_filter

theorem mem_entryPointsList {files : List FileObject} {f : FileObject} :
    f ∈ entryPointsList files ↔ f ∈ files ∧ isEntryPoint f = true := by
  unfold entryPointsList
  rw [List.mem_insertionSort]
  exact List.mem_filter

theorem mem_sourceFilesList {files : List FileObject} {f : FileObject} :
    f ∈ sourceFilesList files ↔ f ∈ files ∧ hasPriorityDir f = true := by
  unfold sourceFilesList
  rw [List.mem_insertionSort]
  exact List.mem_filter

theorem notP2_of_P1 {g : FileObject} (h : isPriority1 g = true) : isPriority2 g = false := by
  rw [Bool.eq_false_iff]
  intro hc
  exact p1_p2_disjoint _ (isPriority1_mem h) (isPriority2_mem hc)

theorem notP1_of_P2 {g : FileObject} (h : isPriority2 g = true) : isPriority1 g = false := by
  rw [Bool.eq_false_iff]
  intro hc
  exact p1_p2_disjoint _ (isPriority1_mem hc) (isPriority2_mem h)

theorem notEntry_of_P1 {g : FileObject} (h : isPriority1 g = true) : isEntryPoint g = false := by
  rw [Bool.eq_false_iff]
  intro hc
  exact p1_entry_disjoint _ (isPriority1_mem h) (isEntryPoint_mem hc)

theorem notP1_of_entry {g : FileObject} (h : isEntryPoint g = true) : isPriority1 g = false := by
  rw [Bool.eq_false_iff]
  intro hc
  exact p1_entry_disjoint _ (isPriority1_mem hc) (isEntryPoint_mem h)

theorem notEntry_of_P2 {g : FileObject} (h : isPriority2 g = true) : isEntryPoint g = false := by
  rw [Bool.eq_false_iff]
  intro hc
  exact p2_entry_disjoint _ (isPriority2_mem h) (isEntryPoint_mem hc)

theorem notP2_of_entry {g : FileObject} (h : isEntryPoint g = true) : isPriority2 g = false := by
  rw [Bool.eq_false_iff]
  intro hc
  exact p2_entry_disjoint _ (isPriority2_mem hc) (isEntryPoint_mem h)

theorem pathSelected_of_mem {sel : List FileObject} {g : FileObject} (h : g ∈ sel) :
    pathSelected sel g.path = true := by
  rw [pathSelected, List.any_eq_true]
  exact ⟨g, h, by simp⟩

theorem sorted_map_outFile_entry {l : List FileObject} (h : List.Sorted entryLe l) :
    List.Sorted entryLe (l.map outFile) :=
  List.Pairwise.map outFile (fun a b hab => (outFile_entryLe a b).mpr hab) h

theorem pairwise_map_outFile_source {l : List FileObject} (h : List.Pairwise sourceLe l) :
    List.Pairwise sourceLe (l.map outFile) :=
  List.Pairwise.map outFile (fun a b hab => (outFile_sourceLe a b).mpr hab) h

theorem sorted_map_outFile_root {l : List FileObject} (h : List.Sorted rootLe l) :
    List.Sorted rootLe (l.map outFile) :=
  List.Pairwise.map outFile (fun a b hab => (outFile_rootLe a b).mpr hab) h
open RepoSense

/-- Re-running the first four passes on an output of the block form
`A1 ++ A2 ++ A3 ++ A4 ++ A5` (priority-1 files, priority-2 files, entry
points, pass-4 files, fallback files) reproduces `A1 ++ A2 ++ A3 ++ A4`. -/
theorem selectState_pass4_of_blocks (S A1 A2 A3 A4 A5 : List FileObject)
    (hS : S = A1 ++ A2 ++ A3 ++ A4 ++ A5)
    (hsum : sumSizes S ≤ MAX_TOTAL_CONTENT)
    (hsizes : ∀ g ∈ S, g.size ≤ MAX_TOTAL_CONTENT)
    (hA1p1 : ∀ g ∈ A1, isPriority1 g = true)
    (hA2p1 : ∀ g ∈ A2, isPriority1 g = false)
    (hA3p1 : ∀ g ∈ A3, isPriority1 g = false)
    (hA4p1 : ∀ g ∈ A4, isPriority1 g = false)
    (hA5p1 : ∀ g ∈ A5, isPriority1 g = false)
    (hA1p2 : ∀ g ∈ A1, isPriority2 g = false)
    (hA2p2 : ∀ g ∈ A2, isPriority2 g = true)
    (hA3p2 : ∀ g ∈ A3, isPriority2 g = false)
    (hA4p2 : ∀ g ∈ A4, isPriority2 g = false)
    (hA5p2 : ∀ g ∈ A5, isPriority2 g = false)
    (hA1e : ∀ g ∈ A1, isEntryPoint g = false)
    (hA2e : ∀ g ∈ A2, isEntryPoint g = false)
    (hA3e : ∀ g ∈ A3, isEntryPoint g = true)
    (hA4e : ∀ g ∈ A4, isEntryPoint g = false)
    (hA5e : ∀ g ∈ A5, isEntryPoint g = false)
    (hA4dir : ∀ g ∈ A4, hasPriorityDir g = true)
    (hA5dir : ∀ g ∈ A5, hasPriorityDir g = false)
    (hA3sorted : List.Sorted entryLe A3)
    (hA4pair : List.Pairwise sourceLe A4)
    (hA4paths : ∀ g ∈ A4, pathSelected (A1 ++ A2 ++ A3) g.path = false)
    (hA4nodup : (pathsOf A4).Nodup)
    (hA4len : A4.length ≤ 20) :
    runPass4 (sourceFilesList S) 0
        (runAdd (entryPointsList S)
          (runAdd (priority2List S) (runAdd (priority1List S) ⟨[], 0⟩))) =
      ⟨A1 ++ A2 ++ A3 ++ A4,
       sumSizes A1 + sumSizes A2 + sumSizes A3 + sumSizes A4⟩ := by
  have hcap : MAX_TOTAL_CONTENT < MAX_FILE_SIZE := by decide
  have hsums : sumSizes S =
      sumSizes A1 + sumSizes A2 + sumSizes A3 + sumSizes A4 + sumSizes A5 := by
    rw [hS]; simp only [sumSizes_app]
  have hsmall : ∀ g ∈ S, ¬ MAX_FILE_SIZE < g.size := by
    intro g hg
    have := hsizes g hg
    omega
  have hin1 : ∀ g ∈ A1, g ∈ S := by
    intro g hg; rw [hS]; simp only [List.mem_append]; tauto
  have hin2 : ∀ g ∈ A2, g ∈ S := by
    intro g hg; rw [hS]; simp only [List.mem_append]; tauto
  have hin3 : ∀ g ∈ A3, g ∈ S := by
    intro g hg; rw [hS]; simp only [List.mem_append]; tauto
  have hin4 : ∀ g ∈ A4, g ∈ S := by
    intro g hg; rw [hS]; simp only [List.mem_append]; tauto
  have nil_of_false : ∀ (p : FileObject → Bool) (l : List FileObject),
      (∀ g ∈ l, p g = false) → l.filter p = [] := by
    intro p l hl
    rw [List.filter_eq_nil_iff]
    intro g hg
    rw [hl g hg]
    simp
  have hf1 : priority1List S = A1 := by
    unfold priority1List
    rw [hS]
    simp only [List.filter_append]
    rw [List.filter_eq_self.mpr hA1p1, nil_of_false _ _ hA2p1, nil_of_false _ _ hA3p1,
      nil_of_false _ _ hA4p1, nil_of_false _ _ hA5p1]
    simp
  have hf2 : priority2List S = A2 := by
    unfold priority2List
    rw [hS]
    simp only [List.filter_append]
    rw [List.filter_eq_self.mpr hA2p2, nil_of_false _ _ hA1p2, nil_of_false _ _ hA3p2,
      nil_of_false _ _ hA4p2, nil_of_false _ _ hA5p2]
    simp
  have hf3 : entryPointsList S = A3 := by
    unfold entryPointsList
    rw [hS]
    simp only [List.filter_append]
    rw [List.filter_eq_self.mpr hA3e, nil_of_false _ _ hA1e, nil_of_false _ _ hA2e,
      nil_of_false _ _ hA4e, nil_of_false _ _ hA5e]
    simp only [List.nil_append, List.append_nil]
    exact hA3sorted.insertionSort_eq
  have hr1 : runAdd (priority1List S) (⟨[], 0⟩ : SelState) = ⟨A1, sumSizes A1⟩ := by
    rw [hf1, runAdd_all A1 ⟨[], 0⟩ (fun x hx => hsmall x (hin1 x hx)) (by dsimp only; omega)]
    dsimp only
    rw [List.nil_append, Nat.zero_add]
  have hr2 : runAdd (priority2List S) (⟨A1, sumSizes A1⟩ : SelState) =
      ⟨A1 ++ A2, sumSizes A1 + sumSizes A2⟩ := by
    rw [hf2, runAdd_all A2 ⟨A1, sumSizes A1⟩ (fun x hx => hsmall x (hin2 x hx))
      (by dsimp only; omega)]
  have hr3 : runAdd (entryPointsList S) (⟨A1 ++ A2, sumSizes A1 + sumSizes A2⟩ : SelState) =
      ⟨A1 ++ A2 ++ A3, sumSizes A1 + sumSizes A2 + sumSizes A3⟩ := by
    rw [hf3, runAdd_all A3 ⟨A1 ++ A2, sumSizes A1 + sumSizes A2⟩
      (fun x hx => hsmall x (hin3 x hx)) (by dsimp only; omega)]
  have hfilterBig : S.filter hasPriorityDir = (A1 ++ A2 ++ A3).filter hasPriorityDir ++ A4 := by
    rw [hS]
    simp only [List.filter_append]
    rw [List.filter_eq_self.mpr hA4dir, nil_of_false _ _ hA5dir, List.append_nil]
  have hA4subM : List.Sublist A4 (sourceFilesList S) := by
    apply List.sublist_insertionSort hA4pair
    rw [hfilterBig]
    exact List.sublist_append_right _ _
  have hA4ptrue : ∀ g ∈ A4, (fun g => !pathSelected (A1 ++ A2 ++ A3) g.path) g = true := by
    intro g hg
    show (!pathSelected (A1 ++ A2 ++ A3) g.path) = true
    rw [hA4paths g hg]
    rfl
  have hCfalse : ∀ g ∈ (A1 ++ A2 ++ A3).filter hasPriorityDir,
      (fun g => !pathSelected (A1 ++ A2 ++ A3) g.path) g = false := by
    intro g hg
    show (!pathSelected (A1 ++ A2 ++ A3) g.path) = false
    rw [pathSelected_of_mem (List.mem_of_mem_filter hg)]
    rfl
  have hA4filt : A4.filter (fun g => !pathSelected (A1 ++ A2 ++ A3) g.path) = A4 :=
    List.filter_eq_self.mpr hA4ptrue
  have hMsub : List.Sublist A4
      ((sourceFilesList S).filter (fun g => !pathSelected (A1 ++ A2 ++ A3) g.path)) := by
    rw [← hA4filt]
    exact hA4subM.filter _
  have hMperm : (sourceFilesList S).filter (fun g => !pathSelected (A1 ++ A2 ++ A3) g.path)
      = A4 := by
    apply (List.Sublist.eq_of_length hMsub ?_).symm
    have hp : List.Perm (sourceFilesList S) (S.filter hasPriorityDir) :=
      List.perm_insertionSort sourceLe _
    have hpf := hp.filter (fun g => !pathSelected (A1 ++ A2 ++ A3) g.path)
    rw [hfilterBig, List.filter_append, nil_of_false _ _ hCfalse, hA4filt,
      List.nil_append] at hpf
    exact hpf.length_eq.symm
  rw [hr1, hr2, hr3,
    runPass4_all_new (sourceFilesList S) 0 ⟨A1 ++ A2 ++ A3,
        sumSizes A1 + sumSizes A2 + sumSizes A3⟩ A4 hMperm hA4nodup
      (fun g hg => hsmall g (hin4 g hg)) (by dsimp only; omega) (by omega)]
open RepoSense

/-- Selection is idempotent on runs in which no `addFile` call ever returned
`false`: the second run reproduces the first run's output verbatim. -/
theorem idempotent_of_noRejection (files : List FileObject) (h : noRejection files) :
    selectKeyFiles (selectKeyFiles files) = selectKeyFiles files := by
  obtain ⟨l', A5, hsub, hS, hsumeq, hsum, hsizes, hnsel, hnd, hlen, hbranch⟩ :=
    noRejection_decomp files h
  set S := selectKeyFiles files with hSdef
  set A1 := (priority1List files).map outFile with hA1
  set A2 := (priority2List files).map outFile with hA2
  set A3 := (entryPointsList files).map outFile with hA3
  set A4 := l'.map outFile with hA4
  -- tier membership facts for the blocks
  have hP1A1 : ∀ g ∈ A1, isPriority1 g = true := by
    intro g hg
    rw [hA1] at hg
    obtain ⟨f, hf, rfl⟩ := List.mem_map.mp hg
    rw [outFile_isPriority1]
    exact (mem_priority1List.mp hf).2
  have hP2A2 : ∀ g ∈ A2, isPriority2 g = true := by
    intro g hg
    rw [hA2] at hg
    obtain ⟨f, hf, rfl⟩ := List.mem_map.mp hg
    rw [outFile_isPriority2]
    exact (mem_priority2List.mp hf).2
  have hEA3 : ∀ g ∈ A3, isEntryPoint g = true := by
    intro g hg
    rw [hA3] at hg
    obtain ⟨f, hf, rfl⟩ := List.mem_map.mp hg
    rw [outFile_isEntryPoint]
    exact (mem_entryPointsList.mp hf).2
  have hDirA4 : ∀ g ∈ A4, hasPriorityDir g = true := by
    intro g hg
    rw [hA4] at hg
    obtain ⟨f, hf, rfl⟩ := List.mem_map.mp hg
    rw [outFile_hasPriorityDir]
    exact (mem_sourceFilesList.mp (hsub.subset hf)).2
  -- a file of a tier re-appears (by path) in the corresponding early block
  have hselC : ∀ f : FileObject, outFile f ∈ A1 ∨ outFile f ∈ A2 ∨ outFile f ∈ A3 →
      pathSelected (A1 ++ A2 ++ A3) f.path = true := by
    intro f hf
    have : pathSelected (A1 ++ A2 ++ A3) (outFile f).path = true := by
      rcases hf with hf | hf | hf
      · exact pathSelected_of_mem (List.mem_append_left _ (List.mem_append_left _ hf))
      · exact pathSelected_of_mem (List.mem_append_left _ (List.mem_append_right _ hf))
      · exact pathSelected_of_mem (List.mem_append_right _ hf)
    rwa [outFile_path] at this
  have hinA1 : ∀ f ∈ files, isPriority1 f = true → outFile f ∈ A1 := by
    intro f hf hp
    rw [hA1]
    exact List.mem_map_of_mem _ (mem_priority1List.mpr ⟨hf, hp⟩)
  have hinA2 : ∀ f ∈ files, isPriority2 f = true → outFile f ∈ A2 := by
    intro f hf hp
    rw [hA2]
    exact List.mem_map_of_mem _ (mem_priority2List.mpr ⟨hf, hp⟩)
  have hinA3 : ∀ f ∈ files, isEntryPoint f = true → outFile f ∈ A3 := by
    intro f hf hp
    rw [hA3]
    exact List.mem_map_of_mem _ (mem_entryPointsList.mpr ⟨hf, hp⟩)
  -- pass-4 files are in no earlier tier
  have hA4files : ∀ f ∈ l', f ∈ files := by
    intro f hf
    exact (mem_sourceFilesList.mp (hsub.subset hf)).1
  have hP1A4 : ∀ g ∈ A4, isPriority1 g = false := by
    intro g hg
    rw [hA4] at hg
    obtain ⟨f, hf, rfl⟩ := List.mem_map.mp hg
    rw [outFile_isPriority1, Bool.eq_false_iff]
    intro hc
    have hps := hselC f (Or.inl (hinA1 f (hA4files f hf) hc))
    rw [hnsel f hf] at hps
    cases hps
  have hP2A4 : ∀ g ∈ A4, isPriority2 g = false := by
    intro g hg
    rw [hA4] at hg
    obtain ⟨f, hf, rfl⟩ := List.mem_map.mp hg
    rw [outFile_isPriority2, Bool.eq_false_iff]
    intro hc
    have hps := hselC f (Or.inr (Or.inl (hinA2 f (hA4files f hf) hc)))
    rw [hnsel f hf] at hps
    cases hps
  have hEA4 : ∀ g ∈ A4, isEntryPoint g = false := by
    intro g hg
    rw [hA4] at hg
    obtain ⟨f, hf, rfl⟩ := List.mem_map.mp hg
    rw [outFile_isEntryPoint, Bool.eq_false_iff]
    intro hc
    have hps := hselC f (Or.inr (Or.inr (hinA3 f (hA4files f hf) hc)))
    rw [hnsel f hf] at hps
    cases hps
  -- early tiers are pairwise name-disjoint
  have hP1A2 : ∀ g ∈ A2, isPriority1 g = false := fun g hg => notP1_of_P2 (hP2A2 g hg)
  have hP1A3 : ∀ g ∈ A3, isPriority1 g = false := fun g hg => notP1_of_entry (hEA3 g hg)
  have hP2A1 : ∀ g ∈ A1, isPriority2 g = false := fun g hg => notP2_of_P1 (hP1A1 g hg)
  have hP2A3 : ∀ g ∈ A3, isPriority2 g = false := fun g hg => notP2_of_entry (hEA3 g hg)
  have hEA1 : ∀ g ∈ A1, isEntryPoint g = false := fun g hg => notEntry_of_P1 (hP1A1 g hg)
  have hEA2 : ∀ g ∈ A2, isEntryPoint g = false := fun g hg => notEntry_of_P2 (hP2A2 g hg)
  -- fallback-block facts
  have hA5facts : ∀ g ∈ A5, isPriority1 g = false ∧ isPriority2 g = false ∧
      isEntryPoint g = false ∧ hasPriorityDir g = false := by
    rcases hbranch with ⟨hb5, rfl⟩ | ⟨hb5, hA5eq⟩
    · intro g hg
      cases hg
    · intro g hg
      rw [hA5eq] at hg
      obtain ⟨f, hf, rfl⟩ := List.mem_map.mp hg
      obtain ⟨hfsel, hffiles⟩ := mem_rootFilesList hf
      have hdepth := mem_rootFilesList_depth hf
      have hsel4 : ∀ hmem : outFile f ∈ A1 ∨ outFile f ∈ A2 ∨ outFile f ∈ A3, False := by
        intro hmem
        have hps := hselC f hmem
        have : pathSelected (A1 ++ A2 ++ A3 ++ A4) f.path = true := by
          rw [pathSelected_append]
          rw [hps]
          rfl
        rw [hfsel] at this
        cases this
      refine ⟨?_, ?_, ?_, ?_⟩
      · rw [outFile_isPriority1, Bool.eq_false_iff]
        intro hc
        exact hsel4 (Or.inl (hinA1 f hffiles hc))
      · rw [outFile_isPriority2, Bool.eq_false_iff]
        intro hc
        exact hsel4 (Or.inr (Or.inl (hinA2 f hffiles hc)))
      · rw [outFile_isEntryPoint, Bool.eq_false_iff]
        intro hc
        exact hsel4 (Or.inr (Or.inr (hinA3 f hffiles hc)))
      · rw [outFile_hasPriorityDir, Bool.eq_false_iff]
        intro hc
        have h3 := hasDir_depth hc
        omega
  -- sortedness data
  have hA3sorted : List.Sorted entryLe A3 := by
    rw [hA3]
    apply sorted_map_outFile_entry
    unfold entryPointsList
    exact List.sorted_insertionSort entryLe _
  have hA4pair : List.Pairwise sourceLe A4 := by
    rw [hA4]
    apply pairwise_map_outFile_source
    apply List.Pairwise.sublist hsub
    unfold sourceFilesList
    exact List.sorted_insertionSort sourceLe _
  have hA4paths : ∀ g ∈ A4, pathSelected (A1 ++ A2 ++ A3) g.path = false := by
    intro g hg
    rw [hA4] at hg
    obtain ⟨f, hf, rfl⟩ := List.mem_map.mp hg
    rw [outFile_path]
    exact hnsel f hf
  have hA4len : A4.length ≤ 20 := by
    rw [hA4, List.length_map]
    exact hlen
  have hcore := selectState_pass4_of_blocks S A1 A2 A3 A4 A5 hS hsum hsizes
    hP1A1 hP1A2 hP1A3 hP1A4 (fun g hg => (hA5facts g hg).1)
    hP2A1 hP2A2 hP2A3 hP2A4 (fun g hg => (hA5facts g hg).2.1)
    hEA1 hEA2 hEA3 hEA4 (fun g hg => (hA5facts g hg).2.2.1)
    hDirA4 (fun g hg => (hA5facts g hg).2.2.2)
    hA3sorted hA4pair hA4paths hnd hA4len
  rw [show selectKeyFiles S = (selectState S).selected from rfl]
  simp only [selectState]
  rw [hcore]
  rcases hbranch with ⟨hb5, rfl⟩ | ⟨hb5, hA5eq⟩
  · rw [if_neg hb5]
    rw [hS, List.append_nil]
  · rw [if_pos hb5]
    have hsumS : sumSizes S =
        sumSizes A1 + sumSizes A2 + sumSizes A3 + sumSizes A4 + sumSizes A5 := by
      rw [hS]
      simp only [sumSizes_app]
    -- the second fallback pass sees exactly the first one's fallback block
    have hroot2 : rootFilesList S (A1 ++ A2 ++ A3 ++ A4) = A5 := by
      unfold rootFilesList
      have hstep1 : S.filter (fun f => !pathSelected (A1 ++ A2 ++ A3 ++ A4) f.path) = A5 := by
        rw [hS]
        simp only [List.filter_append]
        have hnil : ∀ B : List FileObject, (∀ g ∈ B, g ∈ A1 ++ A2 ++ A3 ++ A4) →
            B.filter (fun f => !pathSelected (A1 ++ A2 ++ A3 ++ A4) f.path) = [] := by
          intro B hB
          rw [List.filter_eq_nil_iff]
          intro g hg
          rw [pathSelected_of_mem (hB g hg)]
          simp
        rw [hnil A1 ?_, hnil A2 ?_, hnil A3 ?_, hnil A4 ?_]
        · rw [List.filter_eq_self.mpr ?_]
          · simp
          · intro g hg
            rw [hA5eq] at hg
            obtain ⟨f, hf, rfl⟩ := List.mem_map.mp hg
            obtain ⟨hfsel, _⟩ := mem_rootFilesList hf
            rw [outFile_path, hfsel]
            rfl
        · intro g hg; simp only [List.mem_append]; tauto
        · intro g hg; simp only [List.mem_append]; tauto
        · intro g hg; simp only [List.mem_append]; tauto
        · intro g hg; simp only [List.mem_append]; tauto
      rw [hstep1]
      have hstep2 : A5.filter (fun f => decide (depthOf f.path ≤ 2)) = A5 := by
        rw [List.filter_eq_self]
        intro g hg
        rw [hA5eq] at hg
        obtain ⟨f, hf, rfl⟩ := List.mem_map.mp hg
        have hdepth := mem_rootFilesList_depth hf
        rw [outFile_depthOf]
        exact decide_eq_true hdepth
      rw [hstep2]
      have hA5sorted : List.Sorted rootLe A5 := by
        rw [hA5eq]
        apply sorted_map_outFile_root
        apply List.Pairwise.sublist (List.take_sublist _ _)
        exact List.sorted_insertionSort rootLe _
      rw [hA5sorted.insertionSort_eq]
      apply List.take_of_length_le
      rw [hA5eq, List.length_map]
      have := List.length_take 20 (List.insertionSort rootLe
        ((files.filter (fun f => !pathSelected (A1 ++ A2 ++ A3 ++ A4) f.path)).filter
          (fun f => decide (depthOf f.path ≤ 2))))
      rw [show rootFilesList files (A1 ++ A2 ++ A3 ++ A4) = (List.insertionSort rootLe
        ((files.filter (fun f => !pathSelected (A1 ++ A2 ++ A3 ++ A4) f.path)).filter
          (fun f => decide (depthOf f.path ≤ 2)))).take 20 from rfl]
      omega
    rw [hroot2]
    have hA5small : ∀ x ∈ A5, ¬ MAX_FILE_SIZE < x.size := by
      intro x hx
      have hcap : MAX_TOTAL_CONTENT < MAX_FILE_SIZE := by decide
      have := hsizes x (by rw [hS]; exact List.mem_append_right _ hx)
      omega
    rw [runAdd_all A5 ⟨A1 ++ A2 ++ A3 ++ A4,
        sumSizes A1 + sumSizes A2 + sumSizes A3 + sumSizes A4⟩ hA5small
      (by dsimp only; omega)]
    rw [hS]
open RepoSense

/-- **C6 (counterexample).** An input whose `selectKeyFiles` output is within
the 50 KiB aggregate cap yet is not a fixed point of `selectKeyFiles`: the
pass-1 rejection of `LICENSE` pushes `a/src/README` into pass 4 on the first
run, while the second run picks it up in pass 1, ahead of `package.json`. -/
theorem c6_counterexample :
    sumSizes (selectKeyFiles c6demo) ≤ MAX_TOTAL_CONTENT ∧
    selectKeyFiles (selectKeyFiles c6demo) ≠ selectKeyFiles c6demo := by
  refine ⟨by decide, ?_⟩
  intro heq
  have hm := congrArg (List.map FileObject.path) heq
  rw [show (selectKeyFiles c6demo).map FileObject.path
      = ["README.md", "package.json", "a/src/README"] from rfl] at hm
  rw [show (selectKeyFiles (selectKeyFiles c6demo)).map FileObject.path
      = ["README.md", "a/src/README", "package.json"] from rfl] at hm
  exact absurd hm (by decide)

/-- **C6 (amended).** Selection is idempotent on every run in which no
`addFile` call returned `false` (no candidate was rejected and no truncated
append overflowed the aggregate cap): applying `selectKeyFiles` to such a
run's output returns the same list of records in the same order. -/
theorem c6_idempotent_of_noRejection (files : List FileObject) (h : noRejection files) :
    selectKeyFiles (selectKeyFiles files) = selectKeyFiles files :=
  idempotent_of_noRejection files h

theorem c6_idempotent_of_noRejection_witness :
    noRejection [c6f3] ∧ selectKeyFiles (selectKeyFiles [c6f3]) = selectKeyFiles [c6f3] :=
  ⟨by decide, c6_idempotent_of_noRejection [c6f3] (by decide)⟩
